import Mathlib

/-!
Verification of the remote text-to-speech (TTS) playback pipeline of the
readest repository, shallowly embedded in Lean 4.

Source files embedded here:
- `src/apps/readest-app/src/services/tts/remote/textSegmenter.ts`
  (text segmenter: `normalizeText`, `needSpaceBetween`, `concatText`,
  `pickBestBreakIndex`, `splitByAbsoluteLimit`, `withDefaults`,
  `buildRemoteTTSSegments`),
- `src/apps/readest-app/src/services/tts/RemoteTTSClient.ts`
  (`buildAudioCacheKey`, the LRU audio cache, the prefetch-task map, the
  prefetch-slot semaphore, `ensureAudioResponse`, and the buffered
  segment-playback loop of `speak()`),
- `src/apps/readest-app/src/services/tts/remote/adapter.ts`
  (`mapHttpStatusToErrorCode`, `fetchJsonWithTimeout`, `assertOkResponse`)
  together with `OpenAICompatibleAdapter.synthesize`.

Strings are modelled as `List Char` (named `Str`), JavaScript numbers used
as character counts as `Nat`, and the playback rate as a natural number of
hundredths (`rate.toFixed(2)` is exact on hundredths).  Asynchronous code
is modelled by explicit state passing (the cache/in-flight state, the
semaphore transition system) or by a generated action trace (the `speak`
loop), with the outcome of network calls supplied by explicit oracles.
-/

namespace Readest

/-- Strings are embedded as lists of characters. -/
abbrev Str := List Char

/-- Characters matched by the JavaScript `\s` class that occur in this
code base (ASCII whitespace); used by `normalizeText`'s `\s+` replacement
and by `trim`. -/
def isWS (c : Char) : Bool :=
  c = ' ' || c = '\t' || c = '\n' || c = '\r' || c = '\x0b' || c = '\x0c'

theorem length_dropWhile_le (p : Char → Bool) (l : Str) :
    (l.dropWhile p).length ≤ l.length := by
  induction l with
  | nil => simp [List.dropWhile]
  | cons c t ih =>
    by_cases h : p c
    · simp only [List.dropWhile, h, if_true]
      exact le_trans ih (Nat.le_succ _)
    · simp [List.dropWhile, h]

/-- Helper of `collapseWS`.  The flag records whether the previous
character was whitespace (i.e. whether we are inside a run that has
already emitted its single replacement space). -/
def collapseWSAux : Bool → Str → Str
  | _, [] => []
  | inRun, c :: rest =>
    if isWS c then
      if inRun then collapseWSAux true rest
      else ' ' :: collapseWSAux true rest
    else c :: collapseWSAux false rest

/-- `value.replace(/\s+/g, ' ')`: every maximal run of whitespace becomes a
single space. -/
def collapseWS (s : Str) : Str :=
  collapseWSAux false s

/-- `.trim()`: drop leading and trailing whitespace. -/
def trimWS (s : Str) : Str :=
  ((s.dropWhile isWS).reverse.dropWhile isWS).reverse

/-- `normalizeText` of textSegmenter.ts: collapse whitespace runs to a
single space, then trim. -/
def normalizeText (value : Str) : Str :=
  trimWS (collapseWS value)

/-- The non-whitespace characters of a string, in order.  Used to state
content preservation of the segmenter. -/
def visibleChars (s : Str) : Str :=
  s.filter (fun c => !isWS c)

theorem visibleChars_append (a b : Str) :
    visibleChars (a ++ b) = visibleChars a ++ visibleChars b := by
  simp [visibleChars, List.filter_append]

theorem visibleChars_dropWhile (s : Str) :
    visibleChars (s.dropWhile isWS) = visibleChars s := by
  induction s with
  | nil => rfl
  | cons c rest ih =>
    by_cases h : isWS c = true
    · simp [List.dropWhile, h, visibleChars, List.filter_cons]
      simpa [visibleChars] using ih
    · simp [List.dropWhile, h]

theorem visibleChars_reverse (s : Str) :
    visibleChars s.reverse = (visibleChars s).reverse := by
  simp [visibleChars, List.filter_reverse]

theorem isWS_space : isWS ' ' = true := by decide

theorem visibleChars_collapseWSAux (s : Str) :
    ∀ inRun, visibleChars (collapseWSAux inRun s) = visibleChars s := by
  induction s with
  | nil => intro inRun; rfl
  | cons c rest ih =>
    intro inRun
    rw [collapseWSAux]
    by_cases h : isWS c
    · rw [if_pos h]
      by_cases hr : inRun
      · rw [if_pos hr, ih]
        simp [visibleChars, List.filter_cons, h]
      · rw [if_neg hr]
        have hsp : visibleChars (' ' :: collapseWSAux true rest) =
            visibleChars (collapseWSAux true rest) := by
          simp [visibleChars, List.filter_cons, isWS_space]
        rw [hsp, ih]
        simp [visibleChars, List.filter_cons, h]
    · rw [if_neg h]
      simp only [visibleChars, List.filter_cons] at ih ⊢
      rw [ih]

theorem visibleChars_collapseWS (s : Str) :
    visibleChars (collapseWS s) = visibleChars s :=
  visibleChars_collapseWSAux s false

theorem visibleChars_trimWS (s : Str) :
    visibleChars (trimWS s) = visibleChars s := by
  rw [trimWS, visibleChars_reverse, visibleChars_dropWhile, visibleChars_reverse,
    List.reverse_reverse, visibleChars_dropWhile]

theorem visibleChars_normalizeText (s : Str) :
    visibleChars (normalizeText s) = visibleChars s := by
  rw [normalizeText, visibleChars_trimWS, visibleChars_collapseWS]

theorem collapseWSAux_length_le (s : Str) :
    ∀ inRun, (collapseWSAux inRun s).length ≤ s.length := by
  induction s with
  | nil => intro inRun; simp [collapseWSAux]
  | cons c rest ih =>
    intro inRun
    rw [collapseWSAux]
    by_cases h : isWS c
    · rw [if_pos h]
      by_cases hr : inRun
      · rw [if_pos hr]
        have := ih true
        simp only [List.length_cons]
        omega
      · rw [if_neg hr]
        have := ih true
        simp only [List.length_cons]
        omega
    · rw [if_neg h]
      have := ih false
      simp only [List.length_cons]
      omega

theorem collapseWS_length_le (s : Str) : (collapseWS s).length ≤ s.length :=
  collapseWSAux_length_le s false

theorem trimWS_length_le (s : Str) : (trimWS s).length ≤ s.length := by
  have h1 := length_dropWhile_le isWS (s.dropWhile isWS).reverse
  have h2 := length_dropWhile_le isWS s
  simp only [trimWS, List.length_reverse]
  simp only [List.length_reverse] at h1
  omega

theorem normalizeText_length_le (s : Str) : (normalizeText s).length ≤ s.length :=
  le_trans (trimWS_length_le _) (collapseWS_length_le _)

/-! ### Text segmenter: data model and `buildRemoteTTSSegments` -/

/-- A text mark produced by the external text walker (`TTSMark`). -/
structure TTSMark where
  name : Str
  text : Str
  language : Str
  offset : Nat
deriving DecidableEq, Repr

/-- `RemoteTTSSegment` of textSegmenter.ts. -/
structure RemoteTTSSegment where
  text : Str
  language : Str
  anchorMark : TTSMark
deriving DecidableEq, Repr

/-- `RemoteTTSSegmentOptions` of textSegmenter.ts (all fields present). -/
structure RemoteTTSSegmentOptions where
  preferredMaxChars : Nat
  absoluteMaxChars : Nat
  minCharsPerSegment : Nat
deriving DecidableEq, Repr

/-- `Partial<RemoteTTSSegmentOptions>`: the caller-supplied options, every
field optional. -/
structure RemoteTTSSegmentOptionsInput where
  preferredMaxChars : Option Nat := none
  absoluteMaxChars : Option Nat := none
  minCharsPerSegment : Option Nat := none
deriving DecidableEq, Repr

/-- `DEFAULT_OPTIONS` of textSegmenter.ts. -/
def DEFAULT_OPTIONS : RemoteTTSSegmentOptions :=
  { preferredMaxChars := 90, absoluteMaxChars := 500, minCharsPerSegment := 40 }

/-- `withDefaults` of textSegmenter.ts: merge with defaults, clamp
`preferredMaxChars` down to `absoluteMaxChars`, and clamp
`minCharsPerSegment` to `max(1, floor(preferred / 2))` when it exceeds
`preferredMaxChars`. -/
def withDefaults (options : RemoteTTSSegmentOptionsInput) : RemoteTTSSegmentOptions :=
  let merged : RemoteTTSSegmentOptions :=
    { preferredMaxChars := options.preferredMaxChars.getD DEFAULT_OPTIONS.preferredMaxChars
      absoluteMaxChars := options.absoluteMaxChars.getD DEFAULT_OPTIONS.absoluteMaxChars
      minCharsPerSegment := options.minCharsPerSegment.getD DEFAULT_OPTIONS.minCharsPerSegment }
  let merged :=
    if merged.preferredMaxChars > merged.absoluteMaxChars then
      { merged with preferredMaxChars := merged.absoluteMaxChars }
    else merged
  if merged.minCharsPerSegment > merged.preferredMaxChars then
    { merged with minCharsPerSegment := max 1 (merged.preferredMaxChars / 2) }
  else merged

/-- `STRONG_BREAK_CHARS` of textSegmenter.ts. -/
def isStrongBreak (c : Char) : Bool :=
  c = '。' || c = '！' || c = '？' || c = '；' || c = '…' || c = '!' || c = '?' || c = ';'

/-- `WEAK_BREAK_CHARS` of textSegmenter.ts. -/
def isWeakBreak (c : Char) : Bool :=
  c = '，' || c = '、' || c = ',' || c = '：' || c = ':'

/-- `/[A-Za-z0-9]/.test(c)` on a single character. -/
def isWordChar (c : Char) : Bool :=
  ('A' ≤ c && c ≤ 'Z') || ('a' ≤ c && c ≤ 'z') || ('0' ≤ c && c ≤ '9')

/-- `/[.!?]/.test(c)` on a single character. -/
def isLatinSentenceEnd (c : Char) : Bool :=
  c = '.' || c = '!' || c = '?'

/-- `needSpaceBetween` of textSegmenter.ts: insert a space when joining two
Latin word characters, or after Latin sentence-ending punctuation followed
by a word character. -/
def needSpaceBetween (left right : Str) : Bool :=
  match left.getLast?, right.head? with
  | some leftLast, some rightFirst =>
    (isWordChar leftLast && isWordChar rightFirst) ||
      (isLatinSentenceEnd leftLast && isWordChar rightFirst)
  | _, _ => false

/-- `concatText` of textSegmenter.ts. -/
def concatText (left right : Str) : Str :=
  if left = [] then right
  else if right = [] then left
  else if needSpaceBetween left right then left ++ ' ' :: right
  else left ++ right

/-- Index of the last character of `l` satisfying `p`, if any; the model of
the forward scan of `pickBestBreakIndex`, which keeps overwriting
`strongIdx`/`weakIdx` so that the last matching index wins. -/
def lastIdxWhere (p : Char → Bool) : Str → Option Nat
  | [] => none
  | c :: rest =>
    match lastIdxWhere p rest with
    | some i => some (i + 1)
    | none => if p c then some 0 else none

/-- `pickBestBreakIndex` of textSegmenter.ts: within the first `limit`
characters prefer the last strong-punctuation position, else the last
weak-punctuation position, else hard-cut at `limit`. -/
def pickBestBreakIndex (text : Str) (limit : Nat) : Nat :=
  if text.length ≤ limit then text.length
  else
    let scanned := text.take limit
    match lastIdxWhere isStrongBreak scanned with
    | some i => i + 1
    | none =>
      match lastIdxWhere isWeakBreak scanned with
      | some i => i + 1
      | none => limit

/-- The `while (remaining.length > absoluteMaxChars)` loop of
`splitByAbsoluteLimit`, with an explicit fuel counting its iterations.  The
source loop terminates exactly when `pickBestBreakIndex` makes progress,
which holds whenever `absoluteMaxChars ≥ 1`; `splitLoop_fuel_irrelevant`-style
lemmas below only ever use the fuel in that regime, where
`(normalizeText text).length` iterations always suffice. -/
def splitLoop (absoluteMaxChars : Nat) : Nat → Str → List Str → List Str
  | 0, remaining, chunks =>
    if remaining.length > absoluteMaxChars then chunks ++ [remaining]
    else if remaining = [] then chunks else chunks ++ [remaining]
  | fuel + 1, remaining, chunks =>
    if remaining.length > absoluteMaxChars then
      let idx := pickBestBreakIndex remaining absoluteMaxChars
      let head := normalizeText (remaining.take idx)
      let chunks := if head = [] then chunks else chunks ++ [head]
      splitLoop absoluteMaxChars fuel (normalizeText (remaining.drop idx)) chunks
    else if remaining = [] then chunks else chunks ++ [remaining]

/-- `splitByAbsoluteLimit` of textSegmenter.ts. -/
def splitByAbsoluteLimit (text : Str) (absoluteMaxChars : Nat) : List Str :=
  splitLoop absoluteMaxChars (normalizeText text).length (normalizeText text) []

/-- The mutable locals of `buildRemoteTTSSegments` (`segments`,
`currentText`, `currentAnchor`). -/
structure SegBuildState where
  segments : List RemoteTTSSegment
  currentText : Str
  currentAnchor : Option TTSMark
deriving DecidableEq, Repr

/-- `flush` of `buildRemoteTTSSegments`. -/
def flushState (st : SegBuildState) : SegBuildState :=
  let text := normalizeText st.currentText
  match st.currentAnchor with
  | none => { segments := st.segments, currentText := [], currentAnchor := none }
  | some anchor =>
    if text = [] then { segments := st.segments, currentText := [], currentAnchor := none }
    else
      { segments := st.segments ++
          [{ text := text, language := anchor.language, anchorMark := anchor }]
        currentText := []
        currentAnchor := none }

/-- `appendPiece` of `buildRemoteTTSSegments`. -/
def appendPiece (opts : RemoteTTSSegmentOptions) (st : SegBuildState)
    (piece : Str) (anchor : TTSMark) : SegBuildState :=
  let normalizedPiece := normalizeText piece
  if normalizedPiece = [] then st
  else if st.currentText = [] then
    { segments := st.segments, currentText := normalizedPiece, currentAnchor := some anchor }
  else
    let candidate := concatText st.currentText normalizedPiece
    if candidate.length ≤ opts.preferredMaxChars then
      { segments := st.segments, currentText := candidate, currentAnchor := st.currentAnchor }
    else if st.currentText.length < opts.minCharsPerSegment ∧
        candidate.length ≤ opts.absoluteMaxChars then
      { segments := st.segments, currentText := candidate, currentAnchor := st.currentAnchor }
    else
      let flushed := flushState st
      { segments := flushed.segments, currentText := normalizedPiece,
        currentAnchor := some anchor }

/-- `buildRemoteTTSSegments` of textSegmenter.ts: split each mark's text by
`perPieceLimit = min(preferredMaxChars, absoluteMaxChars)` and greedily
accumulate the pieces, flushing at the limits. -/
def buildRemoteTTSSegments (marks : List TTSMark)
    (options : RemoteTTSSegmentOptionsInput) : List RemoteTTSSegment :=
  let opts := withDefaults options
  let perPieceLimit := min opts.preferredMaxChars opts.absoluteMaxChars
  let final := marks.foldl
    (fun st mark =>
      (splitByAbsoluteLimit mark.text perPieceLimit).foldl
        (fun st piece => appendPiece opts st piece mark) st)
    { segments := [], currentText := [], currentAnchor := none }
  (flushState final).segments

/-! ### Lemmas about `pickBestBreakIndex` and `splitByAbsoluteLimit` -/

theorem lastIdxWhere_lt_length (p : Char → Bool) (l : Str) (i : Nat)
    (h : lastIdxWhere p l = some i) : i < l.length := by
  induction l generalizing i with
  | nil => simp [lastIdxWhere] at h
  | cons c rest ih =>
    rw [lastIdxWhere] at h
    cases hrest : lastIdxWhere p rest with
    | some j =>
      rw [hrest] at h
      have := ih j hrest
      simp only [Option.some.injEq] at h
      simp only [List.length_cons]
      omega
    | none =>
      rw [hrest] at h
      by_cases hp : p c
      · rw [if_pos hp] at h
        simp only [Option.some.injEq] at h
        simp only [List.length_cons]
        omega
      · rw [if_neg hp] at h
        exact absurd h (by simp)

theorem pickBestBreakIndex_le (text : Str) (limit : Nat)
    (h : ¬ text.length ≤ limit) : pickBestBreakIndex text limit ≤ limit := by
  rw [pickBestBreakIndex, if_neg h]
  have hlen : (text.take limit).length = limit := by
    rw [List.length_take]
    omega
  cases hs : lastIdxWhere isStrongBreak (text.take limit) with
  | some i =>
    have hi := lastIdxWhere_lt_length _ _ _ hs
    rw [hlen] at hi
    simp only [hs]
    omega
  | none =>
    simp only [hs]
    cases hw : lastIdxWhere isWeakBreak (text.take limit) with
    | some i =>
      have hi := lastIdxWhere_lt_length _ _ _ hw
      rw [hlen] at hi
      simp only [hw]
      omega
    | none =>
      simp only [hw]
      exact le_rfl

theorem pickBestBreakIndex_pos (text : Str) (limit : Nat)
    (h : ¬ text.length ≤ limit) (hl : 1 ≤ limit) :
    1 ≤ pickBestBreakIndex text limit := by
  rw [pickBestBreakIndex, if_neg h]
  cases hs : lastIdxWhere isStrongBreak (text.take limit) with
  | some i =>
    simp only [hs]
    omega
  | none =>
    simp only [hs]
    cases hw : lastIdxWhere isWeakBreak (text.take limit) with
    | some i =>
      simp only [hw]
      omega
    | none =>
      simp only [hw]
      exact hl

/-- All chunks produced by the split loop are bounded by the limit, as long
as the fuel covers the remaining length (which is where the source's while
loop terminates). -/
theorem splitLoop_chunk_le (limit : Nat) (hl : 1 ≤ limit) :
    ∀ fuel (remaining : Str) (chunks : List Str), remaining.length ≤ fuel →
      (∀ c ∈ chunks, c.length ≤ limit) →
      ∀ c ∈ splitLoop limit fuel remaining chunks, c.length ≤ limit := by
  intro fuel
  induction fuel with
  | zero =>
    intro remaining chunks hfuel hchunks c hc
    have hrem : remaining = [] := by
      cases remaining with
      | nil => rfl
      | cons x xs => simp at hfuel
    subst hrem
    simp [splitLoop] at hc
    exact hchunks c hc
  | succ fuel ih =>
    intro remaining chunks hfuel hchunks c hc
    rw [splitLoop] at hc
    by_cases hbig : remaining.length > limit
    · rw [if_pos hbig] at hc
      have hnotle : ¬ remaining.length ≤ limit := by omega
      have hidxle := pickBestBreakIndex_le remaining limit hnotle
      have hidxpos := pickBestBreakIndex_pos remaining limit hnotle hl
      set idx := pickBestBreakIndex remaining limit with hidx
      have hheadle : (normalizeText (remaining.take idx)).length ≤ limit := by
        calc (normalizeText (remaining.take idx)).length
            ≤ (remaining.take idx).length := normalizeText_length_le _
          _ ≤ idx := by simp [List.length_take]
          _ ≤ limit := hidxle
      have hremle : (normalizeText (remaining.drop idx)).length ≤ fuel := by
        calc (normalizeText (remaining.drop idx)).length
            ≤ (remaining.drop idx).length := normalizeText_length_le _
          _ = remaining.length - idx := by simp [List.length_drop]
          _ ≤ fuel := by omega
      refine ih _ _ hremle ?_ c hc
      intro c' hc'
      by_cases hhead : normalizeText (remaining.take idx) = []
      · rw [if_pos hhead] at hc'
        exact hchunks c' hc'
      · rw [if_neg hhead] at hc'
        rcases List.mem_append.mp hc' with h | h
        · exact hchunks c' h
        · simp only [List.mem_singleton] at h
          rw [h]
          exact hheadle
    · rw [if_neg hbig] at hc
      by_cases hnil : remaining = []
      · rw [if_pos hnil] at hc
        exact hchunks c hc
      · rw [if_neg hnil] at hc
        rcases List.mem_append.mp hc with h | h
        · exact hchunks c h
        · simp only [List.mem_singleton] at h
          rw [h]
          omega

/-- Content preservation of the split loop: ignoring whitespace, the chunks
carry exactly the accumulated chunks plus the remaining text. -/
theorem splitLoop_visible (limit : Nat) :
    ∀ fuel (remaining : Str) (chunks : List Str),
      visibleChars (splitLoop limit fuel remaining chunks).flatten =
        visibleChars chunks.flatten ++ visibleChars remaining := by
  intro fuel
  induction fuel with
  | zero =>
    intro remaining chunks
    rw [splitLoop]
    by_cases hbig : remaining.length > limit
    · rw [if_pos hbig]
      simp [List.flatten_append, visibleChars_append]
    · rw [if_neg hbig]
      by_cases hnil : remaining = []
      · rw [if_pos hnil, hnil]
        simp [visibleChars]
      · rw [if_neg hnil]
        simp [List.flatten_append, visibleChars_append]
  | succ fuel ih =>
    intro remaining chunks
    rw [splitLoop]
    by_cases hbig : remaining.length > limit
    · rw [if_pos hbig]
      set idx := pickBestBreakIndex remaining limit with hidx
      rw [ih]
      have hsplitrem : visibleChars (remaining.take idx) ++ visibleChars (remaining.drop idx) =
          visibleChars remaining := by
        rw [← visibleChars_append, List.take_append_drop]
      by_cases hhead : normalizeText (remaining.take idx) = []
      · rw [if_pos hhead]
        have htake : visibleChars (remaining.take idx) = [] := by
          rw [← visibleChars_normalizeText, hhead]
          rfl
        rw [visibleChars_normalizeText, ← hsplitrem, htake]
        simp
      · rw [if_neg hhead]
        rw [List.flatten_append, visibleChars_append]
        simp only [List.flatten_cons, List.flatten_nil, List.append_nil]
        rw [visibleChars_normalizeText, visibleChars_normalizeText, List.append_assoc,
          hsplitrem]
    · rw [if_neg hbig]
      by_cases hnil : remaining = []
      · rw [if_pos hnil, hnil]
        simp [visibleChars]
      · rw [if_neg hnil]
        simp [List.flatten_append, visibleChars_append]

theorem splitLoop_ne_nil_mem (limit : Nat) :
    ∀ fuel (remaining : Str) (chunks : List Str),
      (∀ c ∈ chunks, c ≠ []) →
      ∀ c ∈ splitLoop limit fuel remaining chunks, c ≠ [] := by
  intro fuel
  induction fuel with
  | zero =>
    intro remaining chunks hchunks c hc
    rw [splitLoop] at hc
    by_cases hbig : remaining.length > limit
    · rw [if_pos hbig] at hc
      rcases List.mem_append.mp hc with h | h
      · exact hchunks c h
      · simp only [List.mem_singleton] at h
        rw [h]
        intro hnil
        rw [hnil] at hbig
        simp at hbig
    · rw [if_neg hbig] at hc
      by_cases hnil : remaining = []
      · rw [if_pos hnil] at hc
        exact hchunks c hc
      · rw [if_neg hnil] at hc
        rcases List.mem_append.mp hc with h | h
        · exact hchunks c h
        · simp only [List.mem_singleton] at h
          rw [h]
          exact hnil
  | succ fuel ih =>
    intro remaining chunks hchunks c hc
    rw [splitLoop] at hc
    by_cases hbig : remaining.length > limit
    · rw [if_pos hbig] at hc
      refine ih _ _ ?_ c hc
      intro c' hc'
      by_cases hhead : normalizeText (remaining.take (pickBestBreakIndex remaining limit)) = []
      · rw [if_pos hhead] at hc'
        exact hchunks c' hc'
      · rw [if_neg hhead] at hc'
        rcases List.mem_append.mp hc' with h | h
        · exact hchunks c' h
        · simp only [List.mem_singleton] at h
          rw [h]
          exact hhead
    · rw [if_neg hbig] at hc
      by_cases hnil : remaining = []
      · rw [if_pos hnil] at hc
        exact hchunks c hc
      · rw [if_neg hnil] at hc
        rcases List.mem_append.mp hc with h | h
        · exact hchunks c h
        · simp only [List.mem_singleton] at h
          rw [h]
          exact hnil

theorem splitByAbsoluteLimit_chunk_le (text : Str) (limit : Nat) (hl : 1 ≤ limit) :
    ∀ c ∈ splitByAbsoluteLimit text limit, c.length ≤ limit :=
  splitLoop_chunk_le limit hl _ _ _ le_rfl (by simp)

theorem splitByAbsoluteLimit_visible (text : Str) (limit : Nat) :
    visibleChars (splitByAbsoluteLimit text limit).flatten = visibleChars text := by
  rw [splitByAbsoluteLimit, splitLoop_visible]
  have h0 : visibleChars ([] : List Str).flatten = [] := rfl
  rw [h0, List.nil_append, visibleChars_normalizeText]

theorem splitByAbsoluteLimit_ne_nil (text : Str) (limit : Nat) :
    ∀ c ∈ splitByAbsoluteLimit text limit, c ≠ [] :=
  splitLoop_ne_nil_mem limit _ _ _ (by simp)

theorem splitByAbsoluteLimit_of_normalize_nil (text : Str) (limit : Nat)
    (h : normalizeText text = []) : splitByAbsoluteLimit text limit = [] := by
  simp [splitByAbsoluteLimit, h, splitLoop]

/-! ### Lemmas about `concatText` and the greedy accumulation -/

theorem visibleChars_concatText (a b : Str) :
    visibleChars (concatText a b) = visibleChars a ++ visibleChars b := by
  rw [concatText]
  by_cases ha : a = []
  · rw [if_pos ha, ha]
    simp [visibleChars]
  · rw [if_neg ha]
    by_cases hb : b = []
    · rw [if_pos hb, hb]
      simp [visibleChars]
    · rw [if_neg hb]
      by_cases hsep : needSpaceBetween a b
      · rw [if_pos hsep]
        rw [visibleChars_append]
        have : visibleChars (' ' :: b) = visibleChars b := by
          simp [visibleChars, List.filter_cons, isWS_space]
        rw [this]
      · rw [if_neg hsep]
        exact visibleChars_append a b

theorem concatText_length_le (a b : Str) :
    (concatText a b).length ≤ a.length + b.length + 1 := by
  rw [concatText]
  by_cases ha : a = []
  · rw [if_pos ha]
    omega
  · rw [if_neg ha]
    by_cases hb : b = []
    · rw [if_pos hb]
      omega
    · rw [if_neg hb]
      by_cases hsep : needSpaceBetween a b
      · rw [if_pos hsep]
        simp only [List.length_append, List.length_cons]
        omega
      · rw [if_neg hsep]
        simp only [List.length_append]
        omega

theorem withDefaults_pref_le_abs (o : RemoteTTSSegmentOptionsInput) :
    (withDefaults o).preferredMaxChars ≤ (withDefaults o).absoluteMaxChars := by
  rw [withDefaults]
  split
  · split
    · simp_all
    · simp_all
  · split
    · simp_all
    · simp_all

/-- Concatenation of the text of the produced segments. -/
def segmentsTextFlat (segs : List RemoteTTSSegment) : Str :=
  (segs.map (fun s => s.text)).flatten

/-- The whitespace-stripped content held by a build state: emitted segments
followed by the running buffer. -/
def stVisible (st : SegBuildState) : Str :=
  visibleChars (segmentsTextFlat st.segments) ++ visibleChars st.currentText

/-- Build-state invariant of `buildRemoteTTSSegments`: a non-empty buffer
always has an anchor mark. -/
def GoodState (st : SegBuildState) : Prop :=
  st.currentText ≠ [] → st.currentAnchor.isSome

theorem GoodState_init : GoodState { segments := [], currentText := [], currentAnchor := none } := by
  intro h
  exact absurd rfl h

theorem flushState_currentText (st : SegBuildState) : (flushState st).currentText = [] := by
  rw [flushState]
  cases st.currentAnchor with
  | none => rfl
  | some anchor =>
    dsimp only
    by_cases h : normalizeText st.currentText = []
    · rw [if_pos h]
    · rw [if_neg h]

theorem flushState_anchor (st : SegBuildState) : (flushState st).currentAnchor = none := by
  rw [flushState]
  cases st.currentAnchor with
  | none => rfl
  | some anchor =>
    dsimp only
    by_cases h : normalizeText st.currentText = []
    · rw [if_pos h]
    · rw [if_neg h]

theorem GoodState_flushState (st : SegBuildState) : GoodState (flushState st) := by
  intro h
  rw [flushState_currentText] at h
  exact absurd rfl h

theorem flushState_visible (st : SegBuildState) (h : GoodState st) :
    visibleChars (segmentsTextFlat (flushState st).segments) = stVisible st := by
  rw [flushState]
  cases hanchor : st.currentAnchor with
  | none =>
    have hcur : st.currentText = [] := by
      by_contra hne
      have := h hne
      rw [hanchor] at this
      simp at this
    rw [stVisible, hcur]
    simp [visibleChars]
  | some anchor =>
    dsimp only
    by_cases hn : normalizeText st.currentText = []
    · rw [if_pos hn]
      have hvis : visibleChars st.currentText = [] := by
        rw [← visibleChars_normalizeText, hn]
        rfl
      rw [stVisible, hvis]
      simp
    · rw [if_neg hn]
      rw [stVisible, segmentsTextFlat, segmentsTextFlat]
      simp only [List.map_append, List.map_cons, List.map_nil, List.flatten_append,
        List.flatten_cons, List.flatten_nil, List.append_nil]
      rw [visibleChars_append, visibleChars_normalizeText]

theorem appendPiece_visible (opts : RemoteTTSSegmentOptions) (st : SegBuildState)
    (piece : Str) (anchor : TTSMark) (h : GoodState st) :
    stVisible (appendPiece opts st piece anchor) = stVisible st ++ visibleChars piece ∧
      GoodState (appendPiece opts st piece anchor) := by
  rw [appendPiece]
  by_cases hnp : normalizeText piece = []
  · rw [if_pos hnp]
    have hvis : visibleChars piece = [] := by
      rw [← visibleChars_normalizeText, hnp]
      rfl
    rw [hvis]
    exact ⟨by simp, h⟩
  · rw [if_neg hnp]
    by_cases hcur : st.currentText = []
    · rw [if_pos hcur]
      constructor
      · rw [stVisible, stVisible]
        simp only
        rw [hcur, visibleChars_normalizeText]
        simp [visibleChars]
      · intro hne
        simp
    · rw [if_neg hcur]
      by_cases h1 : (concatText st.currentText (normalizeText piece)).length ≤
          opts.preferredMaxChars
      · rw [if_pos h1]
        constructor
        · rw [stVisible, stVisible]
          simp only
          rw [visibleChars_concatText, visibleChars_normalizeText, List.append_assoc]
        · intro hne
          exact h hcur
      · rw [if_neg h1]
        by_cases h2 : st.currentText.length < opts.minCharsPerSegment ∧
            (concatText st.currentText (normalizeText piece)).length ≤ opts.absoluteMaxChars
        · rw [if_pos h2]
          constructor
          · rw [stVisible, stVisible]
            simp only
            rw [visibleChars_concatText, visibleChars_normalizeText, List.append_assoc]
          · intro hne
            exact h hcur
        · rw [if_neg h2]
          constructor
          · rw [stVisible, stVisible]
            simp only
            rw [flushState_visible st h, visibleChars_normalizeText, stVisible,
              List.append_assoc]
          · intro hne
            simp

/-- The outer accumulation loop of `buildRemoteTTSSegments`, factored out
for induction (definitionally equal to the `foldl` inside the source
function). -/
def buildFold (opts : RemoteTTSSegmentOptions) (perPieceLimit : Nat)
    (marks : List TTSMark) (st : SegBuildState) : SegBuildState :=
  marks.foldl
    (fun st mark =>
      (splitByAbsoluteLimit mark.text perPieceLimit).foldl
        (fun st piece => appendPiece opts st piece mark) st)
    st

theorem buildRemoteTTSSegments_eq (marks : List TTSMark)
    (options : RemoteTTSSegmentOptionsInput) :
    buildRemoteTTSSegments marks options =
      (flushState (buildFold (withDefaults options)
        (min (withDefaults options).preferredMaxChars (withDefaults options).absoluteMaxChars)
        marks { segments := [], currentText := [], currentAnchor := none })).segments := rfl

theorem flushState_bound (st : SegBuildState) (A : Nat)
    (hseg : ∀ s ∈ st.segments, s.text.length ≤ A)
    (hcur : st.currentText.length ≤ A) :
    ∀ s ∈ (flushState st).segments, s.text.length ≤ A := by
  rw [flushState]
  cases st.currentAnchor with
  | none => exact hseg
  | some anchor =>
    dsimp only
    by_cases h : normalizeText st.currentText = []
    · rw [if_pos h]
      exact hseg
    · rw [if_neg h]
      intro s hs
      rcases List.mem_append.mp hs with hmem | hmem
      · exact hseg s hmem
      · simp only [List.mem_singleton] at hmem
        rw [hmem]
        exact le_trans (normalizeText_length_le _) hcur

theorem appendPiece_bound (opts : RemoteTTSSegmentOptions) (st : SegBuildState)
    (piece : Str) (anchor : TTSMark)
    (hpa : opts.preferredMaxChars ≤ opts.absoluteMaxChars)
    (hpiece : piece.length ≤ opts.preferredMaxChars)
    (hseg : ∀ s ∈ st.segments, s.text.length ≤ opts.absoluteMaxChars)
    (hcur : st.currentText.length ≤ opts.absoluteMaxChars) :
    (∀ s ∈ (appendPiece opts st piece anchor).segments,
        s.text.length ≤ opts.absoluteMaxChars) ∧
      (appendPiece opts st piece anchor).currentText.length ≤ opts.absoluteMaxChars := by
  have hnp : (normalizeText piece).length ≤ opts.preferredMaxChars :=
    le_trans (normalizeText_length_le _) hpiece
  rw [appendPiece]
  by_cases h0 : normalizeText piece = []
  · rw [if_pos h0]
    exact ⟨hseg, hcur⟩
  · rw [if_neg h0]
    by_cases h1 : st.currentText = []
    · rw [if_pos h1]
      exact ⟨hseg, le_trans hnp hpa⟩
    · rw [if_neg h1]
      by_cases h2 : (concatText st.currentText (normalizeText piece)).length ≤
          opts.preferredMaxChars
      · rw [if_pos h2]
        exact ⟨hseg, le_trans h2 hpa⟩
      · rw [if_neg h2]
        by_cases h3 : st.currentText.length < opts.minCharsPerSegment ∧
            (concatText st.currentText (normalizeText piece)).length ≤ opts.absoluteMaxChars
        · rw [if_pos h3]
          exact ⟨hseg, h3.2⟩
        · rw [if_neg h3]
          exact ⟨flushState_bound st _ hseg hcur, le_trans hnp hpa⟩

theorem foldPieces_bound (opts : RemoteTTSSegmentOptions) (anchor : TTSMark)
    (hpa : opts.preferredMaxChars ≤ opts.absoluteMaxChars) :
    ∀ (pieces : List Str) (st : SegBuildState),
      (∀ p ∈ pieces, p.length ≤ opts.preferredMaxChars) →
      (∀ s ∈ st.segments, s.text.length ≤ opts.absoluteMaxChars) →
      st.currentText.length ≤ opts.absoluteMaxChars →
      (∀ s ∈ (pieces.foldl (fun st piece => appendPiece opts st piece anchor) st).segments,
          s.text.length ≤ opts.absoluteMaxChars) ∧
        (pieces.foldl (fun st piece => appendPiece opts st piece anchor)
          st).currentText.length ≤ opts.absoluteMaxChars := by
  intro pieces
  induction pieces with
  | nil =>
    intro st hp hseg hcur
    exact ⟨hseg, hcur⟩
  | cons p rest ih =>
    intro st hp hseg hcur
    rw [List.foldl_cons]
    have hstep := appendPiece_bound opts st p anchor hpa (hp p (by simp)) hseg hcur
    exact ih _ (fun q hq => hp q (by simp [hq])) hstep.1 hstep.2

theorem buildFold_bound (opts : RemoteTTSSegmentOptions) (L : Nat)
    (hpa : opts.preferredMaxChars ≤ opts.absoluteMaxChars)
    (hLle : L ≤ opts.preferredMaxChars) (hLpos : 1 ≤ L) :
    ∀ (marks : List TTSMark) (st : SegBuildState),
      (∀ s ∈ st.segments, s.text.length ≤ opts.absoluteMaxChars) →
      st.currentText.length ≤ opts.absoluteMaxChars →
      (∀ s ∈ (buildFold opts L marks st).segments,
          s.text.length ≤ opts.absoluteMaxChars) ∧
        (buildFold opts L marks st).currentText.length ≤ opts.absoluteMaxChars := by
  intro marks
  induction marks with
  | nil =>
    intro st hseg hcur
    exact ⟨hseg, hcur⟩
  | cons m rest ih =>
    intro st hseg hcur
    rw [buildFold, List.foldl_cons]
    have hpieces : ∀ p ∈ splitByAbsoluteLimit m.text L, p.length ≤ opts.preferredMaxChars :=
      fun p hp => le_trans (splitByAbsoluteLimit_chunk_le m.text L hLpos p hp) hLle
    have hstep := foldPieces_bound opts m hpa _ st hpieces hseg hcur
    exact ih _ hstep.1 hstep.2

theorem foldPieces_visible (opts : RemoteTTSSegmentOptions) (anchor : TTSMark) :
    ∀ (pieces : List Str) (st : SegBuildState), GoodState st →
      stVisible (pieces.foldl (fun st piece => appendPiece opts st piece anchor) st) =
        stVisible st ++ visibleChars pieces.flatten ∧
      GoodState (pieces.foldl (fun st piece => appendPiece opts st piece anchor) st) := by
  intro pieces
  induction pieces with
  | nil =>
    intro st hst
    constructor
    · simp [visibleChars]
    · exact hst
  | cons p rest ih =>
    intro st hst
    rw [List.foldl_cons]
    have hstep := appendPiece_visible opts st p anchor hst
    have hrest := ih _ hstep.2
    refine ⟨?_, hrest.2⟩
    rw [hrest.1, hstep.1, List.flatten_cons, visibleChars_append, List.append_assoc]

theorem buildFold_visible (opts : RemoteTTSSegmentOptions) (L : Nat) :
    ∀ (marks : List TTSMark) (st : SegBuildState), GoodState st →
      stVisible (buildFold opts L marks st) =
        stVisible st ++ visibleChars ((marks.map (fun m => m.text)).flatten) ∧
      GoodState (buildFold opts L marks st) := by
  intro marks
  induction marks with
  | nil =>
    intro st hst
    refine ⟨?_, hst⟩
    rw [buildFold]
    simp [visibleChars]
  | cons m rest ih =>
    intro st hst
    rw [buildFold, List.foldl_cons]
    have hstep := foldPieces_visible opts m (splitByAbsoluteLimit m.text L) st hst
    have hrest := ih _ hstep.2
    rw [buildFold] at hrest
    refine ⟨?_, hrest.2⟩
    rw [hrest.1, hstep.1, splitByAbsoluteLimit_visible, List.map_cons, List.flatten_cons,
      visibleChars_append, List.append_assoc]

theorem visible_flatten_filter_norm (marks : List TTSMark) :
    visibleChars (((marks.map (fun m => normalizeText m.text)).filter
        (fun t => !t.isEmpty)).flatten) =
      visibleChars ((marks.map (fun m => m.text)).flatten) := by
  induction marks with
  | nil => rfl
  | cons m rest ih =>
    by_cases h : normalizeText m.text = []
    · have hvis : visibleChars m.text = [] := by
        rw [← visibleChars_normalizeText, h]
        rfl
      simp only [List.map_cons, List.filter_cons, h, List.isEmpty_nil, Bool.not_true,
        Bool.false_eq_true, if_false]
      rw [ih, List.flatten_cons, visibleChars_append, hvis, List.nil_append]
    · have hne : (normalizeText m.text).isEmpty = false := by
        cases hn : normalizeText m.text with
        | nil => exact absurd hn h
        | cons x xs => rfl
      simp only [List.map_cons, List.filter_cons, hne, Bool.not_false, if_true]
      rw [List.flatten_cons, List.flatten_cons, visibleChars_append, visibleChars_append,
        visibleChars_normalizeText, ih]

/-! ### Claim theorems C4, C5, C6 -/

/-- C4: For every mark list and every (clamped) segmenter option set, every
segment produced by `buildRemoteTTSSegments` has text length less than or
equal to `absoluteMaxChars`.  The hypothesis `1 ≤ preferredMaxChars` (after
clamping) marks exactly the regime in which the source's splitting `while`
loop terminates; the source never calls the segmenter with a smaller
limit. -/
theorem C4_no_segment_exceeds_absolute_limit (marks : List TTSMark)
    (options : RemoteTTSSegmentOptionsInput)
    (hpos : 1 ≤ (withDefaults options).preferredMaxChars) :
    ∀ s ∈ buildRemoteTTSSegments marks options,
      s.text.length ≤ (withDefaults options).absoluteMaxChars := by
  intro s hs
  rw [buildRemoteTTSSegments_eq] at hs
  have hpa := withDefaults_pref_le_abs options
  have hmain := buildFold_bound (withDefaults options)
    (min (withDefaults options).preferredMaxChars (withDefaults options).absoluteMaxChars)
    hpa (min_le_left _ _) (le_min hpos (le_trans hpos hpa)) marks
    { segments := [], currentText := [], currentAnchor := none } (by simp) (by simp)
  exact flushState_bound _ _ hmain.1 hmain.2 s hs

/-- Witness for C4 at a concrete input (default options, one long CJK-free
mark). -/
theorem C4_witness :
    (1 ≤ (withDefaults {}).preferredMaxChars ∧
      ∀ s ∈ buildRemoteTTSSegments
        [{ name := ("m").toList, text := List.replicate 120 'a',
           language := ("en").toList, offset := 0 }] {},
        s.text.length ≤ (withDefaults {}).absoluteMaxChars) :=
  ⟨by decide, C4_no_segment_exceeds_absolute_limit _ _ (by decide)⟩

/-- C5 counterexample: with options `{preferred 4, absolute 8, min 2}` and
the single mark text `"ab, cd"`, the produced segments are `["ab,", "cd"]`.
Their concatenation `"ab,cd"` contains no whitespace at all — so there are
no inserted join spaces to ignore — yet it differs from the concatenation
of the non-empty normalized mark texts, `"ab, cd"`: the space was dropped
when `splitByAbsoluteLimit` cut the mark just after the comma.  Hence the
claimed equality (segment concatenation, ignoring inserted join spaces,
equals normalized mark concatenation) fails at this input. -/
theorem C5_counterexample :
    ((segmentsTextFlat (buildRemoteTTSSegments
        [{ name := ("m").toList, text := ("ab, cd").toList,
           language := ("en").toList, offset := 0 }]
        { preferredMaxChars := some 4, absoluteMaxChars := some 8,
          minCharsPerSegment := some 2 })).all (fun c => !isWS c) = true) ∧
      segmentsTextFlat (buildRemoteTTSSegments
        [{ name := ("m").toList, text := ("ab, cd").toList,
           language := ("en").toList, offset := 0 }]
        { preferredMaxChars := some 4, absoluteMaxChars := some 8,
          minCharsPerSegment := some 2 }) ≠
      (([TTSMark.mk ("m").toList ("ab, cd").toList ("en").toList 0].map
          (fun m => normalizeText m.text)).filter (fun t => !t.isEmpty)).flatten := by
  constructor
  · decide
  · decide

/-- C5 (amended): for every mark list and every option set, the produced
segments reproduce the non-empty whitespace-normalized mark texts exactly
up to whitespace: stripping all whitespace (which removes the single spaces
inserted at join points and also accounts for single spaces dropped at
split boundaries), the concatenation of all segment texts equals the
concatenation of all non-empty normalized mark texts in document order. -/
theorem C5_amended_content_preserved (marks : List TTSMark)
    (options : RemoteTTSSegmentOptionsInput) :
    visibleChars (segmentsTextFlat (buildRemoteTTSSegments marks options)) =
      visibleChars (((marks.map (fun m => normalizeText m.text)).filter
        (fun t => !t.isEmpty)).flatten) := by
  rw [buildRemoteTTSSegments_eq, visible_flatten_filter_norm]
  have hmain := buildFold_visible (withDefaults options)
    (min (withDefaults options).preferredMaxChars (withDefaults options).absoluteMaxChars)
    marks { segments := [], currentText := [], currentAnchor := none } GoodState_init
  rw [flushState_visible _ hmain.2, hmain.1]
  rfl

set_option maxRecDepth 4000 in
/-- C6 counterexample: the claimed scenario — a single 700-character Latin
paragraph with no punctuation and `absoluteMaxChars := 500` (the other
options at their defaults) — yields 8 segments, not 2: the source
pre-splits at `perPieceLimit = min(preferredMaxChars, absoluteMaxChars)`,
which is the default `preferredMaxChars = 90`, and the 90-character pieces
are never re-merged because each piece already reaches the preferred
limit. -/
theorem C6_counterexample :
    (buildRemoteTTSSegments
        [{ name := ("m").toList, text := List.replicate 700 'a',
           language := ("en").toList, offset := 0 }]
        { absoluteMaxChars := some 500 }).length = 8 ∧
      (buildRemoteTTSSegments
        [{ name := ("m").toList, text := List.replicate 700 'a',
           language := ("en").toList, offset := 0 }]
        { absoluteMaxChars := some 500 }).length ≠ 2 := by
  constructor
  · decide
  · decide

set_option maxRecDepth 4000 in
/-- C6 (amended): an over-long mark is pre-split at the best breakpoint at
or below `min(preferredMaxChars, absoluteMaxChars)` (last strong
punctuation, else last weak punctuation, else a hard cut), not at
`absoluteMaxChars` alone; the 700-character no-punctuation Latin paragraph
yields exactly 2 segments — the first of 500 characters and the second
holding the 200-character remainder — when `preferredMaxChars` is also set
to 500 so that the per-piece limit is 500. -/
theorem C6_amended_scenario :
    (buildRemoteTTSSegments
        [{ name := ("m").toList, text := List.replicate 700 'a',
           language := ("en").toList, offset := 0 }]
        { preferredMaxChars := some 500, absoluteMaxChars := some 500 }).map
      (fun s => s.text) = [List.replicate 500 'a', List.replicate 200 'a'] := by
  decide

/-! ### Instrumented segmenter for anchor provenance (C7)

The definitions suffixed `I` are the segmenter instrumented with ghost
data: each mark is paired with its position in the input list, and each
segment records the positions of all marks whose pieces were appended to
the buffer that produced it (`contribs`), in contribution order.  The
erasure lemmas prove that dropping the ghost fields gives back
`buildRemoteTTSSegments` exactly, so properties of the instrumented
version are properties of the source function. -/

/-- `RemoteTTSSegment` plus ghost provenance fields. -/
structure RemoteTTSSegmentI where
  text : Str
  language : Str
  anchorIdx : Nat
  anchorMark : TTSMark
  contribs : List Nat
deriving DecidableEq, Repr

/-- Instrumented build state. -/
structure SegBuildStateI where
  segments : List RemoteTTSSegmentI
  currentText : Str
  currentAnchor : Option (Nat × TTSMark)
  contribs : List Nat
deriving DecidableEq, Repr

/-- Instrumented `flush`. -/
def flushStateI (st : SegBuildStateI) : SegBuildStateI :=
  let text := normalizeText st.currentText
  match st.currentAnchor with
  | none =>
    { segments := st.segments, currentText := [], currentAnchor := none, contribs := [] }
  | some ia =>
    if text = [] then
      { segments := st.segments, currentText := [], currentAnchor := none, contribs := [] }
    else
      { segments := st.segments ++
          [{ text := text, language := ia.2.language, anchorIdx := ia.1,
             anchorMark := ia.2, contribs := st.contribs }]
        currentText := []
        currentAnchor := none
        contribs := [] }

/-- Instrumented `appendPiece`: same control flow, with the contributing
mark position recorded. -/
def appendPieceI (opts : RemoteTTSSegmentOptions) (st : SegBuildStateI)
    (piece : Str) (idx : Nat) (anchor : TTSMark) : SegBuildStateI :=
  let normalizedPiece := normalizeText piece
  if normalizedPiece = [] then st
  else if st.currentText = [] then
    { segments := st.segments, currentText := normalizedPiece,
      currentAnchor := some (idx, anchor), contribs := [idx] }
  else
    let candidate := concatText st.currentText normalizedPiece
    if candidate.length ≤ opts.preferredMaxChars then
      { segments := st.segments, currentText := candidate,
        currentAnchor := st.currentAnchor, contribs := st.contribs ++ [idx] }
    else if st.currentText.length < opts.minCharsPerSegment ∧
        candidate.length ≤ opts.absoluteMaxChars then
      { segments := st.segments, currentText := candidate,
        currentAnchor := st.currentAnchor, contribs := st.contribs ++ [idx] }
    else
      let flushed := flushStateI st
      { segments := flushed.segments, currentText := normalizedPiece,
        currentAnchor := some (idx, anchor), contribs := [idx] }

/-- Instrumented outer accumulation loop over position-tagged marks. -/
def buildFoldI (opts : RemoteTTSSegmentOptions) (perPieceLimit : Nat)
    (ims : List (Nat × TTSMark)) (st : SegBuildStateI) : SegBuildStateI :=
  ims.foldl
    (fun st im =>
      (splitByAbsoluteLimit im.2.text perPieceLimit).foldl
        (fun st piece => appendPieceI opts st piece im.1 im.2) st)
    st

/-- Instrumented `buildRemoteTTSSegments` over `marks.enum`. -/
def buildRemoteTTSSegmentsI (marks : List TTSMark)
    (options : RemoteTTSSegmentOptionsInput) : List RemoteTTSSegmentI :=
  let opts := withDefaults options
  let perPieceLimit := min opts.preferredMaxChars opts.absoluteMaxChars
  (flushStateI (buildFoldI opts perPieceLimit marks.enum
    { segments := [], currentText := [], currentAnchor := none, contribs := [] })).segments

/-- Drop the ghost fields of an instrumented segment. -/
def eraseSegI (s : RemoteTTSSegmentI) : RemoteTTSSegment :=
  { text := s.text, language := s.language, anchorMark := s.anchorMark }

/-- Drop the ghost fields of an instrumented build state. -/
def eraseStI (st : SegBuildStateI) : SegBuildState :=
  { segments := st.segments.map eraseSegI, currentText := st.currentText,
    currentAnchor := st.currentAnchor.map (fun ia => ia.2) }

theorem flushStateI_erase (st : SegBuildStateI) :
    eraseStI (flushStateI st) = flushState (eraseStI st) := by
  obtain ⟨segs, cur, anchor, cbs⟩ := st
  cases anchor with
  | none => rfl
  | some ia =>
    by_cases h : normalizeText cur = []
    · simp [flushStateI, flushState, eraseStI, h]
    · simp [flushStateI, flushState, eraseStI, eraseSegI, h]

theorem appendPieceI_erase (opts : RemoteTTSSegmentOptions) (st : SegBuildStateI)
    (piece : Str) (idx : Nat) (anchor : TTSMark) :
    eraseStI (appendPieceI opts st piece idx anchor) =
      appendPiece opts (eraseStI st) piece anchor := by
  have hflush := flushStateI_erase st
  obtain ⟨segs, cur, panchor, cbs⟩ := st
  simp only [eraseStI] at hflush
  simp only [appendPieceI, appendPiece, eraseStI]
  split_ifs with h0 h1 h2 h3
  · rfl
  · rfl
  · rfl
  · rfl
  · have hsegs := congrArg SegBuildState.segments hflush
    dsimp only at hsegs
    rw [hsegs]
    rfl

theorem buildFoldI_erase (opts : RemoteTTSSegmentOptions) (L : Nat) :
    ∀ (ims : List (Nat × TTSMark)) (st : SegBuildStateI),
      eraseStI (buildFoldI opts L ims st) =
        buildFold opts L (ims.map (fun im => im.2)) (eraseStI st) := by
  intro ims
  induction ims with
  | nil =>
    intro st
    rfl
  | cons im rest ih =>
    intro st
    rw [buildFoldI, List.foldl_cons, buildFold, List.map_cons, List.foldl_cons]
    rw [← buildFoldI, ← buildFold, ih]
    congr 1
    generalize splitByAbsoluteLimit im.2.text L = pieces
    induction pieces generalizing st with
    | nil => rfl
    | cons p prest pih =>
      rw [List.foldl_cons, List.foldl_cons, ← appendPieceI_erase]
      exact pih _

theorem buildRemoteTTSSegmentsI_erase (marks : List TTSMark)
    (options : RemoteTTSSegmentOptionsInput) :
    (buildRemoteTTSSegmentsI marks options).map eraseSegI =
      buildRemoteTTSSegments marks options := by
  rw [buildRemoteTTSSegmentsI, buildRemoteTTSSegments_eq]
  have h := buildFoldI_erase (withDefaults options)
    (min (withDefaults options).preferredMaxChars (withDefaults options).absoluteMaxChars)
    marks.enum
    { segments := [], currentText := [], currentAnchor := none, contribs := [] }
  have henum : marks.enum.map (fun im => im.2) = marks := by
    simp [List.enum_map_snd]
  rw [henum] at h
  have hflush := flushStateI_erase (buildFoldI (withDefaults options)
    (min (withDefaults options).preferredMaxChars (withDefaults options).absoluteMaxChars)
    marks.enum
    { segments := [], currentText := [], currentAnchor := none, contribs := [] })
  have hsegs := congrArg SegBuildState.segments hflush
  rw [eraseStI] at hsegs
  dsimp only at hsegs
  rw [hsegs, h]
  rfl

/-! ### Anchor provenance invariant (C7) -/

/-- Position `j` denotes a mark whose text survives normalization. -/
def okContrib (marks : List TTSMark) (j : Nat) : Prop :=
  ∃ m, marks[j]? = some m ∧ normalizeText m.text ≠ []

/-- Provenance facts of one instrumented segment: its anchor is the first
contributing mark, every contributing mark is a valid position with
non-empty normalized text, and the stored anchor mark is the mark at the
anchor position. -/
def SegOKI (marks : List TTSMark) (s : RemoteTTSSegmentI) : Prop :=
  s.contribs.head? = some s.anchorIdx ∧
  (∀ j ∈ s.contribs, okContrib marks j) ∧
  marks[s.anchorIdx]? = some s.anchorMark

/-- All anchor positions present in a build state, in emission order
(emitted segments first, then the running buffer's anchor). -/
def anchorsList (st : SegBuildStateI) : List Nat :=
  st.segments.map (fun s => s.anchorIdx) ++
    (match st.currentAnchor with
     | some ia => [ia.1]
     | none => [])

/-- Invariant of the instrumented build state, with `bound` an upper bound
on every anchor position present so far. -/
def InvI (marks : List TTSMark) (bound : Nat) (st : SegBuildStateI) : Prop :=
  (∀ s ∈ st.segments, SegOKI marks s) ∧
  List.Chain' (· ≤ ·) (anchorsList st) ∧
  (∀ j ∈ anchorsList st, j ≤ bound) ∧
  (match st.currentAnchor with
   | none => st.contribs = [] ∧ st.currentText = []
   | some ia =>
     st.contribs.head? = some ia.1 ∧ (∀ j ∈ st.contribs, okContrib marks j) ∧
       marks[ia.1]? = some ia.2 ∧ st.currentText ≠ [])

theorem InvI_mono (marks : List TTSMark) (k k' : Nat) (st : SegBuildStateI)
    (hkk : k ≤ k') (h : InvI marks k st) : InvI marks k' st :=
  ⟨h.1, h.2.1, fun j hj => le_trans (h.2.2.1 j hj) hkk, h.2.2.2⟩

theorem InvI_init (marks : List TTSMark) :
    InvI marks 0
      { segments := [], currentText := [], currentAnchor := none, contribs := [] } := by
  refine ⟨by simp, ?_, by simp [anchorsList], ⟨rfl, rfl⟩⟩
  simp [anchorsList]

theorem getLast?_mem_of_nat : ∀ (l : List Nat) (a : Nat), l.getLast? = some a → a ∈ l
  | [], a, h => by simp at h
  | [x], a, h => by
    simp [List.getLast?] at h
    simp [h]
  | x :: y :: t, a, h => by
    rw [List.getLast?_cons_cons] at h
    exact List.mem_cons_of_mem _ (getLast?_mem_of_nat (y :: t) a h)

theorem concatText_ne_nil (a b : Str) (ha : a ≠ []) : concatText a b ≠ [] := by
  rw [concatText, if_neg ha]
  by_cases hb : b = []
  · rw [if_pos hb]
    exact ha
  · rw [if_neg hb]
    by_cases hsep : needSpaceBetween a b
    · rw [if_pos hsep]
      simp [ha]
    · rw [if_neg hsep]
      simp [ha]

theorem flushStateI_inv (marks : List TTSMark) (bound : Nat) (st : SegBuildStateI)
    (h : InvI marks bound st) : InvI marks bound (flushStateI st) := by
  obtain ⟨hA, hB, hC, hD⟩ := h
  obtain ⟨segs, cur, panchor, cbs⟩ := st
  cases panchor with
  | none =>
    exact ⟨hA, hB, hC, ⟨rfl, rfl⟩⟩
  | some ia =>
    simp only [anchorsList] at hB hC
    simp only at hD
    obtain ⟨hhead, hok, hget, hcur⟩ := hD
    by_cases hn : normalizeText cur = []
    · have hfl : flushStateI ⟨segs, cur, some ia, cbs⟩ =
          ⟨segs, [], none, []⟩ := by
        simp [flushStateI, hn]
      rw [hfl]
      refine ⟨hA, ?_, ?_, ⟨rfl, rfl⟩⟩
      · simp only [anchorsList, List.append_nil]
        exact (List.chain'_append.mp hB).1
      · simp only [anchorsList, List.append_nil]
        intro j hj
        exact hC j (List.mem_append.mpr (Or.inl hj))
    · have hfl : flushStateI ⟨segs, cur, some ia, cbs⟩ =
          ⟨segs ++ [RemoteTTSSegmentI.mk (normalizeText cur) ia.2.language ia.1 ia.2 cbs],
            [], none, []⟩ := by
        simp [flushStateI, hn]
      rw [hfl]
      refine ⟨?_, ?_, ?_, ⟨rfl, rfl⟩⟩
      · intro s hs
        simp only at hs
        rcases List.mem_append.mp hs with hmem | hmem
        · exact hA s hmem
        · simp only [List.mem_singleton] at hmem
          rw [hmem]
          exact ⟨hhead, hok, hget⟩
      · simp only [anchorsList, List.map_append, List.map_cons, List.map_nil,
          List.append_nil]
        exact hB
      · simp only [anchorsList, List.map_append, List.map_cons, List.map_nil,
          List.append_nil]
        exact hC

theorem appendPieceI_inv (opts : RemoteTTSSegmentOptions) (marks : List TTSMark)
    (st : SegBuildStateI) (piece : Str) (idx : Nat) (anchor : TTSMark) (k : Nat)
    (hinv : InvI marks k st) (hk : k ≤ idx)
    (hget : marks[idx]? = some anchor)
    (hnn : normalizeText anchor.text ≠ []) :
    InvI marks idx (appendPieceI opts st piece idx anchor) := by
  have hflinv := flushStateI_inv marks k st hinv
  obtain ⟨hA, hB, hC, hD⟩ := hinv
  rw [appendPieceI]
  by_cases h0 : normalizeText piece = []
  · rw [if_pos h0]
    exact InvI_mono marks k idx st hk ⟨hA, hB, hC, hD⟩
  · rw [if_neg h0]
    by_cases h1 : st.currentText = []
    · rw [if_pos h1]
      have hanchor : st.currentAnchor = none := by
        cases hpa : st.currentAnchor with
        | none => rfl
        | some ia =>
          rw [hpa] at hD
          exact absurd h1 hD.2.2.2
      refine ⟨hA, ?_, ?_, ⟨rfl, ?_, hget, h0⟩⟩
      · simp only [anchorsList]
        simp only [anchorsList, hanchor, List.append_nil] at hB hC
        rw [List.chain'_append]
        refine ⟨hB, by simp, ?_⟩
        intro x hx y hy
        simp only [List.head?_cons, Option.mem_def, Option.some.injEq] at hy
        subst hy
        exact le_trans (hC x (getLast?_mem_of_nat _ x hx)) hk
      · simp only [anchorsList]
        simp only [anchorsList, hanchor, List.append_nil] at hC
        intro j hj
        rcases List.mem_append.mp hj with hmem | hmem
        · exact le_trans (hC j hmem) hk
        · simp only [List.mem_singleton] at hmem
          omega
      · intro j hj
        simp only [List.mem_singleton] at hj
        subst hj
        exact ⟨anchor, hget, hnn⟩
    · rw [if_neg h1]
      obtain ⟨ia, hpa⟩ : ∃ ia, st.currentAnchor = some ia := by
        cases hpa : st.currentAnchor with
        | none =>
          rw [hpa] at hD
          exact absurd hD.2 h1
        | some ia => exact ⟨ia, rfl⟩
      rw [hpa] at hD
      obtain ⟨hhead, hok, hgetia, hcur⟩ := hD
      have hcbs : st.contribs ≠ [] := by
        intro hnil
        rw [hnil] at hhead
        simp at hhead
      have hheadapp : (st.contribs ++ [idx]).head? = some ia.1 := by
        cases hcbs2 : st.contribs with
        | nil => exact absurd hcbs2 hcbs
        | cons c t =>
          rw [hcbs2] at hhead
          simpa using hhead
      have hokapp : ∀ j ∈ st.contribs ++ [idx], okContrib marks j := by
        intro j hj
        rcases List.mem_append.mp hj with hmem | hmem
        · exact hok j hmem
        · simp only [List.mem_singleton] at hmem
          rw [hmem]
          exact ⟨anchor, hget, hnn⟩
      have hcand := concatText_ne_nil st.currentText (normalizeText piece) h1
      by_cases h2 : (concatText st.currentText (normalizeText piece)).length ≤
          opts.preferredMaxChars
      · rw [if_pos h2]
        refine ⟨hA, ?_, ?_, ?_⟩
        · simpa [anchorsList, hpa] using hB
        · intro j hj
          refine le_trans (hC j ?_) hk
          simpa [anchorsList, hpa] using hj
        · rw [hpa]
          exact ⟨hheadapp, hokapp, hgetia, hcand⟩
      · rw [if_neg h2]
        by_cases h3 : st.currentText.length < opts.minCharsPerSegment ∧
            (concatText st.currentText (normalizeText piece)).length ≤ opts.absoluteMaxChars
        · rw [if_pos h3]
          refine ⟨hA, ?_, ?_, ?_⟩
          · simpa [anchorsList, hpa] using hB
          · intro j hj
            refine le_trans (hC j ?_) hk
            simpa [anchorsList, hpa] using hj
          · rw [hpa]
            exact ⟨hheadapp, hokapp, hgetia, hcand⟩
        · rw [if_neg h3]
          obtain ⟨hfA, hfB, hfC, hfD⟩ := hflinv
          have hfanchor : (flushStateI st).currentAnchor = none := by
            obtain ⟨fsegs, fcur, fanchor, fcbs⟩ := st
            cases fanchor with
            | none => rfl
            | some ja =>
              by_cases hn : normalizeText fcur = []
              · simp [flushStateI, hn]
              · simp [flushStateI, hn]
          refine ⟨hfA, ?_, ?_, ⟨rfl, ?_, hget, h0⟩⟩
          · simp only [anchorsList]
            simp only [anchorsList, hfanchor, List.append_nil] at hfB hfC
            rw [List.chain'_append]
            refine ⟨hfB, by simp, ?_⟩
            intro x hx y hy
            simp only [List.head?_cons, Option.mem_def, Option.some.injEq] at hy
            subst hy
            exact le_trans (hfC x (getLast?_mem_of_nat _ x hx)) hk
          · simp only [anchorsList]
            simp only [anchorsList, hfanchor, List.append_nil] at hfC
            intro j hj
            rcases List.mem_append.mp hj with hmem | hmem
            · exact le_trans (hfC j hmem) hk
            · simp only [List.mem_singleton] at hmem
              omega
          · intro j hj
            simp only [List.mem_singleton] at hj
            subst hj
            exact ⟨anchor, hget, hnn⟩

theorem flushStateI_currentAnchor (st : SegBuildStateI) :
    (flushStateI st).currentAnchor = none := by
  obtain ⟨segs, cur, panchor, cbs⟩ := st
  cases panchor with
  | none => rfl
  | some ia =>
    by_cases hn : normalizeText cur = []
    · simp [flushStateI, hn]
    · simp [flushStateI, hn]

theorem head?_mem_of_nat {l : List Nat} {a : Nat} (h : l.head? = some a) : a ∈ l := by
  cases l with
  | nil => simp at h
  | cons x t =>
    simp only [List.head?_cons, Option.some.injEq] at h
    simp [h]

theorem foldPiecesI_inv (opts : RemoteTTSSegmentOptions) (marks : List TTSMark)
    (idx : Nat) (anchor : TTSMark)
    (hget : marks[idx]? = some anchor) (hnn : normalizeText anchor.text ≠ []) :
    ∀ (pieces : List Str) (st : SegBuildStateI) (k : Nat), k ≤ idx → InvI marks k st →
      InvI marks idx
        (pieces.foldl (fun st piece => appendPieceI opts st piece idx anchor) st) := by
  intro pieces
  induction pieces with
  | nil =>
    intro st k hk hinv
    exact InvI_mono marks k idx st hk hinv
  | cons p rest ih =>
    intro st k hk hinv
    rw [List.foldl_cons]
    exact ih _ idx le_rfl (appendPieceI_inv opts marks st p idx anchor k hinv hk hget hnn)

/-- The pair list handed to `buildFoldI` consists of valid positions of
`marks`, with non-decreasing indices starting at or above `k`. -/
def GoodIdxList (marks : List TTSMark) : Nat → List (Nat × TTSMark) → Prop
  | _, [] => True
  | k, im :: rest => k ≤ im.1 ∧ marks[im.1]? = some im.2 ∧ GoodIdxList marks im.1 rest

theorem buildFoldI_inv (opts : RemoteTTSSegmentOptions) (L : Nat) (marks : List TTSMark) :
    ∀ (ims : List (Nat × TTSMark)) (k : Nat) (st : SegBuildStateI),
      GoodIdxList marks k ims → InvI marks k st →
      ∃ kk, InvI marks kk (buildFoldI opts L ims st) := by
  intro ims
  induction ims with
  | nil =>
    intro k st _ hinv
    exact ⟨k, hinv⟩
  | cons im rest ih =>
    intro k st hgood hinv
    obtain ⟨hk, hget, hrest⟩ := hgood
    rw [buildFoldI, List.foldl_cons, ← buildFoldI]
    by_cases hnn : normalizeText im.2.text = []
    · rw [splitByAbsoluteLimit_of_normalize_nil im.2.text L hnn, List.foldl_nil]
      exact ih im.1 st hrest (InvI_mono marks k im.1 st hk hinv)
    · exact ih im.1 _ hrest (foldPiecesI_inv opts marks im.1 im.2 hget hnn _ st k hk hinv)

theorem goodIdxList_enumFrom (marks : List TTSMark) :
    ∀ (suffix : List TTSMark) (n k : Nat), k ≤ n →
      (∀ j : Nat, suffix[j]? = marks[n + j]?) →
      GoodIdxList marks k (List.enumFrom n suffix) := by
  intro suffix
  induction suffix with
  | nil =>
    intro n k _ _
    simp [List.enumFrom, GoodIdxList]
  | cons m rest ih =>
    intro n k hk hidx
    rw [List.enumFrom]
    refine ⟨hk, ?_, ?_⟩
    · have h0 := hidx 0
      have h0s : (some m : Option TTSMark) = marks[n]? := by simpa using h0
      exact h0s.symm
    · refine ih (n + 1) n (by omega) ?_
      intro j
      have hj := hidx (j + 1)
      have harith : n + (j + 1) = n + 1 + j := by omega
      rw [harith] at hj
      simpa using hj

theorem buildRemoteTTSSegmentsI_eq (marks : List TTSMark)
    (options : RemoteTTSSegmentOptionsInput) :
    buildRemoteTTSSegmentsI marks options =
      (flushStateI (buildFoldI (withDefaults options)
        (min (withDefaults options).preferredMaxChars (withDefaults options).absoluteMaxChars)
        marks.enum
        { segments := [], currentText := [], currentAnchor := none, contribs := [] })).segments :=
  rfl

/-- C7: for every mark list and option set, every segment produced by
`buildRemoteTTSSegments` (related to its instrumented version
`buildRemoteTTSSegmentsI` by the erasure equation, first conjunct) has an
`anchorMark` equal to the first mark that contributed text to that
segment's buffer — the head of the recorded contributor positions — every
contributor (in particular the anchor) is a mark whose text does not
normalize to empty, and the anchor positions of consecutive segments are
non-decreasing in document order. -/
theorem C7_anchor_first_contributor_and_monotone (marks : List TTSMark)
    (options : RemoteTTSSegmentOptionsInput) :
    ((buildRemoteTTSSegmentsI marks options).map eraseSegI =
        buildRemoteTTSSegments marks options) ∧
      (∀ s ∈ buildRemoteTTSSegmentsI marks options,
        s.contribs.head? = some s.anchorIdx ∧
        (∀ j ∈ s.contribs, ∃ m, marks[j]? = some m ∧ normalizeText m.text ≠ []) ∧
        marks[s.anchorIdx]? = some s.anchorMark ∧
        normalizeText s.anchorMark.text ≠ []) ∧
      List.Chain' (· ≤ ·)
        ((buildRemoteTTSSegmentsI marks options).map (fun s => s.anchorIdx)) := by
  have hgood : GoodIdxList marks 0 marks.enum :=
    goodIdxList_enumFrom marks marks 0 0 le_rfl (by simp)
  obtain ⟨kk, hinv⟩ := buildFoldI_inv (withDefaults options)
    (min (withDefaults options).preferredMaxChars (withDefaults options).absoluteMaxChars)
    marks marks.enum 0
    { segments := [], currentText := [], currentAnchor := none, contribs := [] }
    hgood (InvI_init marks)
  have hfl := flushStateI_inv marks kk _ hinv
  obtain ⟨hA, hB, _, _⟩ := hfl
  refine ⟨buildRemoteTTSSegmentsI_erase marks options, ?_, ?_⟩
  · intro s hs
    rw [buildRemoteTTSSegmentsI_eq] at hs
    obtain ⟨hhead, hok, hgeta⟩ := hA s hs
    refine ⟨hhead, hok, hgeta, ?_⟩
    obtain ⟨m, hm, hmne⟩ := hok s.anchorIdx (head?_mem_of_nat hhead)
    rw [hgeta] at hm
    rw [Option.some.inj hm]
    exact hmne
  · rw [buildRemoteTTSSegmentsI_eq]
    have hlist : anchorsList (flushStateI (buildFoldI (withDefaults options)
        (min (withDefaults options).preferredMaxChars
          (withDefaults options).absoluteMaxChars)
        marks.enum
        { segments := [], currentText := [], currentAnchor := none, contribs := [] })) =
        ((flushStateI (buildFoldI (withDefaults options)
          (min (withDefaults options).preferredMaxChars
            (withDefaults options).absoluteMaxChars)
          marks.enum
          { segments := [], currentText := [], currentAnchor := none,
            contribs := [] })).segments).map (fun s => s.anchorIdx) := by
      rw [anchorsList, flushStateI_currentAnchor]
      simp
    rw [← hlist]
    exact hB

/-! ### Playback engine: the buffered segment loop of `speak()` (C1)

The non-preload, non-streaming-transport path of `RemoteTTSClient.speak`
(`warmupAudioRequests` plus the `for` loop over `segments`) is modelled as
a function producing the list of observable actions, with three oracles
supplying the scheduler-dependent outcomes: `ab k` is the value of
`signal.aborted || this.#isStopped` at the k-th check (checks `2*i` and
`2*i + 1` are the top-of-iteration and the post-await checks of iteration
`i`), `fetchErr i` is the rejection message of segment `i`'s audio promise
(none = resolves), and `playFail i` the failure of `playBufferedAudio`.
The per-`speak` promise map `audioBufferPromises` is modelled by its
insertion-ordered key list `created`. -/

/-- One observable action of the buffered playback loop.  `prefetch i`
records `getOrCreateAudioPromise(i)` creating the promise for segment `i`
(starting its network request); `boundary`/`errorEv`/`endEv` are the
events the generator yields; `acquire i` marks the engine awaiting
segment `i`'s audio. -/
inductive SpeakAction where
  | prefetch (idx : Nat)
  | boundary (mark : Str)
  | acquire (idx : Nat)
  | errorEv (message : Str)
  | endEv
deriving DecidableEq, Repr

def abortedMessage : Str := ("Aborted").toList

/-- The `for (idx = startIndex; idx < endExclusive; idx++)` loop of
`warmupAudioRequests`, iterated `cnt = endExclusive - startIndex` times:
indices already in the promise map are skipped, fresh ones are created. -/
def warmupCount (created : List Nat) (idx : Nat) : Nat → List Nat × List SpeakAction
  | 0 => (created, [])
  | cnt + 1 =>
    if created.contains idx then warmupCount created (idx + 1) cnt
    else
      let r := warmupCount (created ++ [idx]) (idx + 1) cnt
      (r.1, SpeakAction.prefetch idx :: r.2)

/-- `warmupAudioRequests` of `RemoteTTSClient.speak`: request the window
`[startIndex, min(segments.length, startIndex + prefetchWindowSize))`. -/
def warmupAudioRequests (n W : Nat) (created : List Nat) (start : Nat) :
    List Nat × List SpeakAction :=
  warmupCount created start (min n (start + W) - start)

/-- The `for (segmentIndex = ...)` loop of the buffered path of `speak`,
processing the suffix of `segments` from index `i` on.  Per iteration:
abort check, `boundary` yield, warm-up of the next window, await of
segment `i` (creating its promise first if the window never covered it),
`audioBufferPromises.delete(segmentIndex)`, second abort check, playback;
any failure yields one `error` event and stops. -/
def speakLoopFrom (W : Nat) (ab : Nat → Bool) (fetchErr playFail : Nat → Option Str)
    (n : Nat) : List RemoteTTSSegment → Nat → List Nat → List SpeakAction
  | [], _, _ => [SpeakAction.endEv]
  | seg :: rest, i, created =>
    if ab (2 * i) then [SpeakAction.errorEv abortedMessage]
    else
      let w := warmupAudioRequests n W created (i + 1)
      let acq : List Nat × List SpeakAction :=
        if w.1.contains i then (w.1, [SpeakAction.acquire i])
        else (w.1 ++ [i], [SpeakAction.prefetch i, SpeakAction.acquire i])
      SpeakAction.boundary seg.anchorMark.name ::
        (w.2 ++ acq.2 ++
          (match fetchErr i with
           | some m => [SpeakAction.errorEv m]
           | none =>
             if ab (2 * i + 1) then [SpeakAction.errorEv abortedMessage]
             else
               match playFail i with
               | some m => [SpeakAction.errorEv m]
               | none => speakLoopFrom W ab fetchErr playFail n rest (i + 1) (acq.1.erase i)))

/-- The full action trace of a non-preload buffered `speak` call:
`warmupAudioRequests(0)` followed by the segment loop. -/
def speakTrace (segs : List RemoteTTSSegment) (W : Nat) (ab : Nat → Bool)
    (fetchErr playFail : Nat → Option Str) : List SpeakAction :=
  let w := warmupAudioRequests segs.length W [] 0
  w.2 ++ speakLoopFrom W ab fetchErr playFail segs.length segs 0 w.1

/-- The actions of one completed clean iteration `i`: its boundary event,
the (at most one) new prefetch started by the warm-up of the next window,
and the acquisition of segment `i`'s audio. -/
def cleanIterActs (segs : List RemoteTTSSegment) (W i : Nat) : List SpeakAction :=
  (match segs[i]? with
   | some seg => [SpeakAction.boundary seg.anchorMark.name]
   | none => []) ++
    (if i + W < segs.length then [SpeakAction.prefetch (i + W)] else []) ++
    [SpeakAction.acquire i]

/-- Concatenated clean iterations for indices `a ≤ i < b`. -/
def cleanItersRange (segs : List RemoteTTSSegment) (W a b : Nat) : List SpeakAction :=
  ((List.range' a (b - a)).map (cleanIterActs segs W)).flatten

/-- Actions that are events yielded by the generator (as opposed to
internal request bookkeeping). -/
def isYieldAction : SpeakAction → Bool
  | SpeakAction.prefetch _ => false
  | SpeakAction.acquire _ => false
  | _ => true

theorem warmupCount_fresh :
    ∀ (cnt : Nat) (created : List Nat) (idx : Nat), (∀ j ∈ created, j < idx) →
      warmupCount created idx cnt =
        (created ++ List.range' idx cnt, (List.range' idx cnt).map SpeakAction.prefetch) := by
  intro cnt
  induction cnt with
  | zero =>
    intro created idx _
    simp [warmupCount]
  | succ cnt ih =>
    intro created idx hlt
    rw [warmupCount]
    have hcont : created.contains idx = false := by
      by_contra hc
      have : idx ∈ created := by
        have := Bool.not_eq_false _ |>.mp hc
        simpa using this
      exact absurd (hlt idx this) (by omega)
    rw [hcont]
    simp only [Bool.false_eq_true, if_false]
    have hall : ∀ j ∈ created ++ [idx], j < idx + 1 := by
      intro j hj
      rcases List.mem_append.mp hj with h | h
      · exact Nat.lt_succ_of_lt (hlt j h)
      · simp only [List.mem_singleton] at h
        omega
    rw [ih (created ++ [idx]) (idx + 1) hall]
    rw [List.range'_succ]
    simp [List.append_assoc]

theorem warmupCount_skip_fresh :
    ∀ (scnt : Nat) (fcnt : Nat) (created : List Nat) (idx : Nat),
      (∀ j, idx ≤ j → j < idx + scnt → j ∈ created) →
      (∀ j ∈ created, j < idx + scnt) →
      warmupCount created idx (scnt + fcnt) =
        (created ++ List.range' (idx + scnt) fcnt,
          (List.range' (idx + scnt) fcnt).map SpeakAction.prefetch) := by
  intro scnt
  induction scnt with
  | zero =>
    intro fcnt created idx _ hlt
    have h0 : idx + 0 = idx := rfl
    rw [Nat.zero_add]
    exact warmupCount_fresh fcnt created idx (by simpa using hlt)
  | succ scnt ih =>
    intro fcnt created idx hmem hlt
    have hstep : scnt + 1 + fcnt = (scnt + fcnt) + 1 := by omega
    rw [hstep, warmupCount]
    have hcont : created.contains idx = true := by
      have : idx ∈ created := hmem idx le_rfl (by omega)
      simpa using this
    rw [hcont]
    simp only [if_true]
    have harith : idx + 1 + scnt = idx + (scnt + 1) := by omega
    have h1 := ih fcnt created (idx + 1)
      (fun j hj1 hj2 => hmem j (by omega) (by omega))
      (fun j hj => by
        have := hlt j hj
        omega)
    rw [harith] at h1
    exact h1

theorem warmupAudioRequests_step (n W i : Nat) (hW : 1 ≤ W) (hi : i < n) :
    warmupAudioRequests n W (List.range' i (min n (i + W) - i)) (i + 1) =
      (List.range' i (min n (i + 1 + W) - i),
        if i + W < n then [SpeakAction.prefetch (i + W)] else []) := by
  rw [warmupAudioRequests]
  by_cases hwin : i + W < n
  · have hminW : min n (i + W) = i + W := by omega
    have hminW1 : min n (i + 1 + W) = i + 1 + W := by omega
    have hL : min n (i + W) - i = W := by omega
    have hcnt : min n (i + 1 + W) - (i + 1) = W := by omega
    rw [hL, hcnt]
    have hWsplit : W = (W - 1) + 1 := by omega
    have h := warmupCount_skip_fresh (W - 1) 1 (List.range' i W) (i + 1)
      (fun j hj1 hj2 => by
        rw [List.mem_range'_1]
        omega)
      (fun j hj => by
        rw [List.mem_range'_1] at hj
        omega)
    rw [← hWsplit] at h
    rw [h]
    have hpos : i + 1 + (W - 1) = i + W := by omega
    rw [hpos]
    have hlen : min n (i + 1 + W) - i = W + 1 := by omega
    rw [hlen]
    have hres : List.range' i (W + 1) = List.range' i W ++ [i + W] := by
      rw [List.range'_concat]
      simp [Nat.one_mul]
    have hone : List.range' (i + W) 1 = [i + W] := by
      simp [List.range']
    rw [hres, if_pos hwin, hone]
    simp
  · have hL : min n (i + W) - i = n - i := by omega
    have hcnt : min n (i + 1 + W) - (i + 1) = (n - i) - 1 := by omega
    have hlen : min n (i + 1 + W) - i = n - i := by omega
    rw [hL, hcnt, hlen]
    have hsplit : (n - i) - 1 + 0 = (n - i) - 1 := rfl
    have h := warmupCount_skip_fresh ((n - i) - 1) 0 (List.range' i (n - i)) (i + 1)
      (fun j hj1 hj2 => by
        rw [List.mem_range'_1]
        omega)
      (fun j hj => by
        rw [List.mem_range'_1] at hj
        omega)
    rw [hsplit] at h
    rw [h]
    simp only [List.range'_zero, List.map_nil, List.append_nil]
    rw [if_neg hwin]

theorem contains_nat_iff (l : List Nat) (a : Nat) : l.contains a = true ↔ a ∈ l := by
  simp

theorem range'_contains_head (i L : Nat) (hL : 1 ≤ L) :
    (List.range' i L).contains i = true := by
  rw [contains_nat_iff, List.mem_range'_1]
  omega

theorem range'_erase_head (i L : Nat) (hL : 1 ≤ L) :
    (List.range' i L).erase i = List.range' (i + 1) (L - 1) := by
  obtain ⟨M, rfl⟩ : ∃ M, L = M + 1 := ⟨L - 1, by omega⟩
  rw [List.range'_succ, List.erase_cons_head]
  simp

theorem cleanItersRange_split (segs : List RemoteTTSSegment) (W i b : Nat) (hib : i < b) :
    cleanItersRange segs W i b =
      cleanIterActs segs W i ++ cleanItersRange segs W (i + 1) b := by
  rw [cleanItersRange, cleanItersRange]
  have hsplit : b - i = (b - (i + 1)) + 1 := by omega
  rw [hsplit, List.range'_succ]
  rw [List.map_cons, List.flatten_cons]

theorem speakLoop_clean (segs : List RemoteTTSSegment) (W : Nat) (hW : 1 ≤ W)
    (ab : Nat → Bool) (fetchErr playFail : Nat → Option Str)
    (hab : ∀ j, ab j = false) (hfe : ∀ i, fetchErr i = none)
    (hpf : ∀ i, playFail i = none) :
    ∀ (suffix : List RemoteTTSSegment) (i : Nat), suffix = segs.drop i →
      speakLoopFrom W ab fetchErr playFail segs.length suffix i
          (List.range' i (min segs.length (i + W) - i)) =
        cleanItersRange segs W i segs.length ++ [SpeakAction.endEv] := by
  intro suffix
  induction suffix with
  | nil =>
    intro i hdrop
    have hlen := congrArg List.length hdrop
    simp only [List.length_nil, List.length_drop] at hlen
    rw [speakLoopFrom, cleanItersRange]
    have h0 : segs.length - i = 0 := by omega
    rw [h0]
    simp
  | cons seg rest ih =>
    intro i hdrop
    have hlen := congrArg List.length hdrop
    simp only [List.length_cons, List.length_drop] at hlen
    have hi : i < segs.length := by omega
    have hget : segs[i]? = some seg := by
      have h0 : (segs.drop i)[0]? = some seg := by
        rw [← hdrop]
        simp
      rw [List.getElem?_drop] at h0
      simpa using h0
    have hrest : rest = segs.drop (i + 1) := by
      have h1 := List.drop_drop 1 i segs
      rw [← hdrop] at h1
      simpa using h1
    rw [speakLoopFrom]
    simp only [hab, Bool.false_eq_true, if_false]
    rw [warmupAudioRequests_step segs.length W i hW hi]
    have hL1 : 1 ≤ min segs.length (i + 1 + W) - i := by omega
    simp only [range'_contains_head i _ hL1, if_true]
    simp only [hfe]
    simp only [hpf]
    rw [range'_erase_head i _ hL1]
    have harith : min segs.length (i + 1 + W) - i - 1 =
        min segs.length ((i + 1) + W) - (i + 1) := by omega
    rw [harith]
    rw [ih (i + 1) hrest]
    rw [cleanItersRange_split segs W i segs.length hi]
    rw [cleanIterActs, hget]
    simp [List.append_assoc]

theorem speakLoop_abort (segs : List RemoteTTSSegment) (W : Nat) (hW : 1 ≤ W)
    (ab : Nat → Bool) (fetchErr playFail : Nat → Option Str) (k : Nat)
    (hk : k < segs.length)
    (hab : ∀ j, j < 2 * k → ab j = false) (habk : ab (2 * k) = true)
    (hfe : ∀ i, i < k → fetchErr i = none) (hpf : ∀ i, i < k → playFail i = none) :
    ∀ (suffix : List RemoteTTSSegment) (i : Nat), suffix = segs.drop i → i ≤ k →
      speakLoopFrom W ab fetchErr playFail segs.length suffix i
          (List.range' i (min segs.length (i + W) - i)) =
        cleanItersRange segs W i k ++ [SpeakAction.errorEv abortedMessage] := by
  intro suffix
  induction suffix with
  | nil =>
    intro i hdrop hik
    have hlen := congrArg List.length hdrop
    simp only [List.length_nil, List.length_drop] at hlen
    omega
  | cons seg rest ih =>
    intro i hdrop hik
    have hlen := congrArg List.length hdrop
    simp only [List.length_cons, List.length_drop] at hlen
    have hi : i < segs.length := by omega
    by_cases hikeq : i = k
    · subst hikeq
      rw [speakLoopFrom, habk]
      simp only [if_true]
      rw [cleanItersRange]
      have h0 : i - i = 0 := by omega
      rw [h0]
      simp
    · have hilt : i < k := by omega
      have hget : segs[i]? = some seg := by
        have h0 : (segs.drop i)[0]? = some seg := by
          rw [← hdrop]
          simp
        rw [List.getElem?_drop] at h0
        simpa using h0
      have hrest : rest = segs.drop (i + 1) := by
        have h1 := List.drop_drop 1 i segs
        rw [← hdrop] at h1
        simpa using h1
      rw [speakLoopFrom]
      rw [hab (2 * i) (by omega)]
      simp only [Bool.false_eq_true, if_false]
      rw [warmupAudioRequests_step segs.length W i hW hi]
      have hL1 : 1 ≤ min segs.length (i + 1 + W) - i := by omega
      simp only [range'_contains_head i _ hL1, if_true]
      rw [hfe i hilt]
      rw [hab (2 * i + 1) (by omega)]
      simp only [Bool.false_eq_true, if_false]
      rw [hpf i hilt]
      rw [range'_erase_head i _ hL1]
      have harith : min segs.length (i + 1 + W) - i - 1 =
          min segs.length ((i + 1) + W) - (i + 1) := by omega
      rw [harith]
      rw [ih (i + 1) hrest (by omega)]
      rw [cleanItersRange_split segs W i k hilt]
      rw [cleanIterActs, hget]
      simp [List.append_assoc]

theorem warmupAudioRequests_init (n W : Nat) :
    warmupAudioRequests n W [] 0 =
      (List.range' 0 (min n W), (List.range' 0 (min n W)).map SpeakAction.prefetch) := by
  rw [warmupAudioRequests]
  have h := warmupCount_fresh (min n (0 + W) - 0) [] 0 (by simp)
  rw [h]
  have harith : min n (0 + W) - 0 = min n W := by omega
  rw [harith]
  simp

theorem cleanIterActs_filter (segs : List RemoteTTSSegment) (W a : Nat)
    (seg : RemoteTTSSegment) (hget : segs[a]? = some seg) :
    (cleanIterActs segs W a).filter isYieldAction =
      [SpeakAction.boundary seg.anchorMark.name] := by
  rw [cleanIterActs, hget]
  by_cases h : a + W < segs.length
  · rw [if_pos h]
    simp [isYieldAction, List.filter_append]
  · rw [if_neg h]
    simp [isYieldAction, List.filter_append]

theorem cleanItersRange_filter (segs : List RemoteTTSSegment) (W : Nat) :
    ∀ (cnt a : Nat), a + cnt = segs.length →
      (cleanItersRange segs W a segs.length).filter isYieldAction =
        (segs.drop a).map (fun seg => SpeakAction.boundary seg.anchorMark.name) := by
  intro cnt
  induction cnt with
  | zero =>
    intro a ha
    rw [cleanItersRange]
    have h0 : segs.length - a = 0 := by omega
    rw [h0]
    have hdrop : segs.drop a = [] := List.drop_eq_nil_of_le (by omega)
    rw [hdrop]
    simp
  | succ cnt ih =>
    intro a ha
    have halt : a < segs.length := by omega
    have hseg : segs[a]? = some segs[a] := by
      simp [List.getElem?_eq_getElem halt]
    rw [cleanItersRange_split segs W a segs.length halt]
    rw [List.filter_append]
    rw [cleanIterActs_filter segs W a segs[a] hseg]
    rw [ih (a + 1) (by omega)]
    have hdropa : segs.drop a = segs[a] :: segs.drop (a + 1) :=
      List.drop_eq_getElem_cons halt
    rw [hdropa, List.map_cons, List.singleton_append]

/-- C1: for every non-preload call of the buffered playback loop of
`RemoteTTSClient.speak` (modelled by `speakTrace` over a prefetch window
`W ≥ 1`; the source uses `W = 2`):
(1) when the abort/stop flag never fires and every acquisition and
playback succeeds, the trace is the initial warm-up prefetches followed,
for each segment in document order, by exactly one `boundary` event
carrying that segment's anchor mark name, the next window's prefetch, and
only then the acquisition of that segment's audio, closing with exactly
one terminal `end` event — in particular the yielded events are exactly
the per-segment boundaries in order followed by one `end`;
(2) when the flag first becomes set at the top-of-iteration check of
segment `k`, the trace consists of the completed iterations before `k`
followed by a single `error("Aborted")` event, and nothing follows it: no
boundary, acquisition or prefetch for segment `k` or any later segment is
started. -/
theorem C1_speak_buffered_event_protocol (segs : List RemoteTTSSegment) (W : Nat)
    (ab : Nat → Bool) (fetchErr playFail : Nat → Option Str) (hW : 1 ≤ W) :
    ((∀ j, ab j = false) → (∀ i, fetchErr i = none) → (∀ i, playFail i = none) →
      (speakTrace segs W ab fetchErr playFail =
          (List.range' 0 (min segs.length W)).map SpeakAction.prefetch ++
            (cleanItersRange segs W 0 segs.length ++ [SpeakAction.endEv]) ∧
        (speakTrace segs W ab fetchErr playFail).filter isYieldAction =
          segs.map (fun seg => SpeakAction.boundary seg.anchorMark.name) ++
            [SpeakAction.endEv])) ∧
    (∀ k, k < segs.length → (∀ j, j < 2 * k → ab j = false) → ab (2 * k) = true →
      (∀ i, i < k → fetchErr i = none) → (∀ i, i < k → playFail i = none) →
      speakTrace segs W ab fetchErr playFail =
        (List.range' 0 (min segs.length W)).map SpeakAction.prefetch ++
          (cleanItersRange segs W 0 k ++ [SpeakAction.errorEv abortedMessage])) := by
  have hcreated : List.range' 0 (min segs.length W) =
      List.range' 0 (min segs.length (0 + W) - 0) := by
    congr 1
    omega
  constructor
  · intro hab hfe hpf
    have htrace : speakTrace segs W ab fetchErr playFail =
        (List.range' 0 (min segs.length W)).map SpeakAction.prefetch ++
          (cleanItersRange segs W 0 segs.length ++ [SpeakAction.endEv]) := by
      rw [speakTrace]
      rw [warmupAudioRequests_init]
      dsimp only
      congr 1
      rw [hcreated]
      exact speakLoop_clean segs W hW ab fetchErr playFail hab hfe hpf segs 0 (by simp)
    refine ⟨htrace, ?_⟩
    rw [htrace, List.filter_append, List.filter_append]
    have hwarm : ((List.range' 0 (min segs.length W)).map SpeakAction.prefetch).filter
        isYieldAction = [] := by
      simp [isYieldAction, List.filter_map]
    rw [hwarm, cleanItersRange_filter segs W segs.length 0 (by omega)]
    simp [isYieldAction]
  · intro k hk hab habk hfe hpf
    rw [speakTrace]
    rw [warmupAudioRequests_init]
    dsimp only
    congr 1
    rw [hcreated]
    exact speakLoop_abort segs W hW ab fetchErr playFail k hk hab habk hfe hpf segs 0
      (by simp) (by omega)

/-- Witness for C1 at a concrete input: two segments, the source's window
size 2, one run with no abort (clean protocol) and one run aborted at the
top of iteration 1. -/
theorem C1_witness :
    (1 ≤ 2 ∧
      speakTrace
        [RemoteTTSSegment.mk ("s0").toList ("en").toList
          (TTSMark.mk ("m0").toList ("t0").toList ("en").toList 0),
         RemoteTTSSegment.mk ("s1").toList ("en").toList
          (TTSMark.mk ("m1").toList ("t1").toList ("en").toList 1)]
        2 (fun _ => false) (fun _ => none) (fun _ => none) =
        [SpeakAction.prefetch 0, SpeakAction.prefetch 1,
         SpeakAction.boundary (("m0").toList), SpeakAction.acquire 0,
         SpeakAction.boundary (("m1").toList), SpeakAction.acquire 1,
         SpeakAction.endEv]) ∧
      speakTrace
        [RemoteTTSSegment.mk ("s0").toList ("en").toList
          (TTSMark.mk ("m0").toList ("t0").toList ("en").toList 0),
         RemoteTTSSegment.mk ("s1").toList ("en").toList
          (TTSMark.mk ("m1").toList ("t1").toList ("en").toList 1)]
        2 (fun j => j == 2) (fun _ => none) (fun _ => none) =
        [SpeakAction.prefetch 0, SpeakAction.prefetch 1,
         SpeakAction.boundary (("m0").toList), SpeakAction.acquire 0,
         SpeakAction.errorEv abortedMessage] := by
  constructor
  · refine ⟨by decide, ?_⟩
    have h := (C1_speak_buffered_event_protocol
      [RemoteTTSSegment.mk ("s0").toList ("en").toList
        (TTSMark.mk ("m0").toList ("t0").toList ("en").toList 0),
       RemoteTTSSegment.mk ("s1").toList ("en").toList
        (TTSMark.mk ("m1").toList ("t1").toList ("en").toList 1)]
      2 (fun _ => false) (fun _ => none) (fun _ => none) (by decide)).1
      (fun _ => rfl) (fun _ => rfl) (fun _ => rfl)
    exact h.1.trans (by decide)
  · have h := (C1_speak_buffered_event_protocol
      [RemoteTTSSegment.mk ("s0").toList ("en").toList
        (TTSMark.mk ("m0").toList ("t0").toList ("en").toList 0),
       RemoteTTSSegment.mk ("s1").toList ("en").toList
        (TTSMark.mk ("m1").toList ("t1").toList ("en").toList 1)]
      2 (fun j => j == 2) (fun _ => none) (fun _ => none) (by decide)).2 1 (by decide)
      (fun j hj => by
        have hne : j ≠ 2 := by omega
        simpa using hne)
      (by decide) (fun i hi => rfl) (fun i hi => rfl)
    exact h.trans (by decide)

/-! ### Prefetch-slot semaphore (C2)

`#acquirePrefetchSlot` / `#releasePrefetchSlot` of RemoteTTSClient.ts as a
transition system over the tasks using them.  Each task is in one phase:
`idle` (has not called acquire), `waiting` (pushed its resolver onto
`#prefetchWaiters`), `woken` (its resolver was called by a release, but the
continuation after the `await` — the `#prefetchInFlight += 1` — has not run
yet), `holding` (incremented the counter and not yet released), `done`
(ran `#releasePrefetchSlot`).  The events are exactly the three atomic
steps the source performs between suspension points:
`tryAcquire` runs the body of `#acquirePrefetchSlot` up to its first
`await` (fast-path increment, or push onto the waiter queue);
`release` runs `#releasePrefetchSlot` (decrement clamped at 0, shift one
waiter and call it); `resume` runs the woken waiter's continuation
(`#prefetchInFlight += 1`). -/

inductive TaskPhase where
  | idle
  | waiting
  | woken
  | holding
  | done
deriving DecidableEq, Repr

structure SemState where
  maxSlots : Nat
  inFlight : Nat
  phases : List TaskPhase
  waiters : List Nat
deriving DecidableEq, Repr

inductive SemEvent where
  | tryAcquire (t : Nat)
  | release (t : Nat)
  | resume (t : Nat)
deriving DecidableEq, Repr

/-- One scheduler step.  `none` when the event is not enabled (the task is
not in the right phase). -/
def applyEvent (s : SemState) (e : SemEvent) : Option SemState :=
  match e with
  | SemEvent.tryAcquire t =>
    match s.phases[t]? with
    | some TaskPhase.idle =>
      if s.inFlight < s.maxSlots then
        some { s with inFlight := s.inFlight + 1, phases := s.phases.set t TaskPhase.holding }
      else
        some { s with
          phases := s.phases.set t TaskPhase.waiting
          waiters := s.waiters ++ [t] }
    | _ => none
  | SemEvent.release t =>
    match s.phases[t]? with
    | some TaskPhase.holding =>
      let base : SemState :=
        { s with inFlight := s.inFlight - 1, phases := s.phases.set t TaskPhase.done }
      match base.waiters with
      | [] => some base
      | w :: rest =>
        some { base with phases := base.phases.set w TaskPhase.woken, waiters := rest }
    | _ => none
  | SemEvent.resume t =>
    match s.phases[t]? with
    | some TaskPhase.woken =>
      some { s with inFlight := s.inFlight + 1, phases := s.phases.set t TaskPhase.holding }
    | _ => none

/-- Run a sequence of scheduler events from a state. -/
def runEvents (s : SemState) : List SemEvent → Option SemState
  | [] => some s
  | e :: es =>
    match applyEvent s e with
    | some s2 => runEvents s2 es
    | none => none

/-- Initial state: `n` idle tasks, counter 0, no waiters.  The source
constructs the client with `#maxPrefetchInFlight = 2`. -/
def initSem (n maxSlots : Nat) : SemState :=
  { maxSlots := maxSlots, inFlight := 0, phases := List.replicate n TaskPhase.idle,
    waiters := [] }

/-- Number of tasks concurrently holding a prefetch slot. -/
def countHolding (s : SemState) : Nat :=
  s.phases.countP (fun p => p = TaskPhase.holding)

/-- C2 (code bug): the semaphore of `RemoteTTSClient` can admit more
concurrent holders than `#maxPrefetchInFlight`.  `#releasePrefetchSlot`
decrements the counter and wakes a waiter, but the woken waiter increments
the counter only when its continuation runs, without re-checking the
limit; a fast-path `#acquirePrefetchSlot` that runs between the release
and the waiter's resumption sees the decremented counter and takes a slot
as well.  Concretely, with limit 2 and four tasks: tasks 0 and 1 acquire,
task 2 waits, task 0 releases (waking task 2), task 3 fast-path acquires
(counter is 1 < 2), then task 2 resumes — three tasks now hold slots
concurrently, exceeding the limit of 2. -/
theorem C2_semaphore_overshoot :
    (Option.map countHolding (runEvents (initSem 4 2)
      [SemEvent.tryAcquire 0, SemEvent.tryAcquire 1, SemEvent.tryAcquire 2,
       SemEvent.release 0, SemEvent.tryAcquire 3, SemEvent.resume 2]) = some 3) ∧
      (initSem 4 2).maxSlots = 2 ∧ 2 < 3 := by
  exact ⟨by decide, rfl, by decide⟩

/-! ### Audio cache key, LRU cache, and in-flight dedup (C3, C10)

`buildAudioCacheKey`, `getCachedAudio`, `setCachedAudio` and
`getOrCreatePrefetchAudioTask` of `RemoteTTSClient.speak`.  JavaScript
`Map`s are modelled as insertion-ordered association lists (oldest first;
`Map.set` on an existing key updates in place, `delete`+`set` moves to the
end).  The playback rate is modelled in hundredths so that
`this.#rate.toFixed(2)` is rendered exactly. -/

/-- Decimal digit character, as produced by JavaScript number
formatting. -/
def digitChar (d : Nat) : Char :=
  Char.ofNat (48 + d)

/-- Decimal rendering of a natural number (the integer part of
`toFixed`); the fuel argument bounds the digit count and `n + 1` always
suffices. -/
def natDigitsAux : Nat → Nat → Str
  | 0, _ => []
  | fuel + 1, n =>
    if n < 10 then [digitChar n]
    else natDigitsAux fuel (n / 10) ++ [digitChar (n % 10)]

def natDigits (n : Nat) : Str :=
  natDigitsAux (n + 1) n

/-- Parse decimal digits back to a number (left fold, most significant
first). -/
def digitsVal (l : Str) : Nat :=
  l.foldl (fun acc c => acc * 10 + (c.toNat - 48)) 0

theorem digitChar_toNat (d : Nat) (h : d < 10) : (digitChar d).toNat = 48 + d := by
  interval_cases d <;> decide

theorem digitsVal_append_one (l : Str) (c : Char) :
    digitsVal (l ++ [c]) = digitsVal l * 10 + (c.toNat - 48) := by
  rw [digitsVal, digitsVal, List.foldl_append]
  rfl

theorem digitsVal_natDigitsAux :
    ∀ (fuel n : Nat), n < fuel → digitsVal (natDigitsAux fuel n) = n := by
  intro fuel
  induction fuel with
  | zero =>
    intro n h
    omega
  | succ fuel ih =>
    intro n h
    rw [natDigitsAux]
    by_cases h10 : n < 10
    · rw [if_pos h10]
      have := digitChar_toNat n h10
      rw [digitsVal]
      simp only [List.foldl_cons, List.foldl_nil]
      omega
    · rw [if_neg h10]
      have hdiv : n / 10 < fuel := by omega
      rw [digitsVal_append_one, ih (n / 10) hdiv]
      have := digitChar_toNat (n % 10) (by omega)
      omega

theorem natDigits_injective (a b : Nat) (h : natDigits a = natDigits b) : a = b := by
  have ha := digitsVal_natDigitsAux (a + 1) a (by omega)
  have hb := digitsVal_natDigitsAux (b + 1) b (by omega)
  rw [natDigits] at h
  rw [natDigits] at h
  rw [← ha, ← hb, h]

/-- `this.#rate.toFixed(2)` with the rate given in exact hundredths:
integer part, a dot, and exactly two fraction digits. -/
def rateToFixed2 (rateHundredths : Nat) : Str :=
  natDigits (rateHundredths / 100) ++
    '.' :: digitChar (rateHundredths % 100 / 10) :: [digitChar (rateHundredths % 10)]

theorem digitChar_injective (a b : Nat) (ha : a < 10) (hb : b < 10)
    (h : digitChar a = digitChar b) : a = b := by
  have := congrArg Char.toNat h
  rw [digitChar_toNat a ha, digitChar_toNat b hb] at this
  omega

theorem rateToFixed2_injective (r1 r2 : Nat) (h : rateToFixed2 r1 = rateToFixed2 r2) :
    r1 = r2 := by
  rw [rateToFixed2, rateToFixed2] at h
  have hparts := List.append_inj' h rfl
  have hint := natDigits_injective _ _ hparts.1
  have htail := hparts.2
  simp only [List.cons.injEq, and_true] at htail
  have htens := digitChar_injective _ _ (by omega) (by omega) htail.2.1
  have hones := digitChar_injective _ _ (by omega) (by omega) htail.2.2
  omega

/-- The parameter tuple that `buildAudioCacheKey` serializes (captured
from the enclosing `speak` call: active provider id and model, selected
voice, effective response format, current playback rate) plus the segment
text. -/
structure AudioCacheKeyParams where
  providerId : Str
  model : Str
  voice : Str
  responseFormat : Str
  rateHundredths : Nat
  segmentText : Str
deriving DecidableEq, Repr

/-- `buildAudioCacheKey` of `RemoteTTSClient.speak`:
`[provider.id, provider.model || '', selectedVoice || '', responseFormat,
this.#rate.toFixed(2), segmentText].join('|')`. -/
def buildAudioCacheKey (p : AudioCacheKeyParams) : Str :=
  p.providerId ++ '|' :: (p.model ++ '|' :: (p.voice ++ '|' :: (p.responseFormat ++
    '|' :: (rateToFixed2 p.rateHundredths ++ '|' :: p.segmentText))))

/-- Audio payload held by the cache (`{ data, contentType }`). -/
structure AudioPayload where
  data : List Nat
  contentType : Str
deriving DecidableEq, Repr

/-- The client-level cache state: `#audioCache` (insertion-ordered LRU
association list, oldest first) and the key set of `#audioPrefetchTasks`
(in-flight synthesis promises). -/
structure AudioCacheState where
  audioCache : List (Str × AudioPayload)
  audioPrefetchTasks : List Str
deriving DecidableEq, Repr

/-- `getCachedAudio`: look the key up; on a hit, delete and re-insert the
entry so it moves to the most-recently-used end. -/
def getCachedAudio (st : AudioCacheState) (key : Str) :
    Option AudioPayload × AudioCacheState :=
  match st.audioCache.find? (fun e => e.1 == key) with
  | none => (none, st)
  | some e =>
    (some e.2,
      { st with audioCache :=
          (st.audioCache.eraseP (fun en => en.1 == key)) ++ [(key, e.2)] })

/-- JavaScript `Map.set`: update in place when the key exists, else append
at the most-recently-used end. -/
def mapSet (cache : List (Str × AudioPayload)) (key : Str) (payload : AudioPayload) :
    List (Str × AudioPayload) :=
  if cache.any (fun e => e.1 == key) then
    cache.map (fun e => if e.1 == key then (key, payload) else e)
  else cache ++ [(key, payload)]

/-- The `while (this.#audioCache.size > this.#preloadCacheMaxEntries)`
eviction loop: repeatedly delete the oldest entry, i.e. drop from the
front down to the capacity. -/
def evictToCapacity (cap : Nat) (cache : List (Str × AudioPayload)) :
    List (Str × AudioPayload) :=
  cache.drop (cache.length - cap)

/-- `setCachedAudio`: insert, then evict least-recently-used entries
beyond the capacity (`#preloadCacheMaxEntries = 64` in the source). -/
def setCachedAudio (cap : Nat) (st : AudioCacheState) (key : Str)
    (payload : AudioPayload) : AudioCacheState :=
  { st with audioCache := evictToCapacity cap (mapSet st.audioCache key payload) }

/-- The synchronous prefix of `getOrCreatePrefetchAudioTask`: cache hit →
reuse (no network call); key already in `#audioPrefetchTasks` → join the
in-flight task (no network call); otherwise create the task (one network
request) and register it in the in-flight map.  The boolean records
whether a network request was issued. -/
def beginPrefetchRequest (st : AudioCacheState) (key : Str) : AudioCacheState × Bool :=
  let c := getCachedAudio st key
  match c.1 with
  | some _ => (c.2, false)
  | none =>
    if st.audioPrefetchTasks.contains key then (st, false)
    else ({ st with audioPrefetchTasks := st.audioPrefetchTasks ++ [key] }, true)

/-- Settlement of a successful prefetch task: the `.then` stores the
payload in the cache, the `.finally` removes the key from
`#audioPrefetchTasks`. -/
def settlePrefetchSuccess (cap : Nat) (st : AudioCacheState) (key : Str)
    (payload : AudioPayload) : AudioCacheState :=
  let st1 := setCachedAudio cap st key payload
  { st1 with audioPrefetchTasks := st1.audioPrefetchTasks.erase key }

/-- Settlement of a failed prefetch task: only the `.finally` runs. -/
def settlePrefetchFailure (st : AudioCacheState) (key : Str) : AudioCacheState :=
  { st with audioPrefetchTasks := st.audioPrefetchTasks.erase key }

theorem getLast?_drop_of_lt {α : Type} (l : List α) (k : Nat) (h : k < l.length) :
    (l.drop k).getLast? = l.getLast? := by
  conv_rhs => rw [← List.take_append_drop k l]
  rw [List.getLast?_append]
  have hne : l.drop k ≠ [] := by
    intro hnil
    have hlen := List.length_drop k l
    rw [hnil] at hlen
    simp only [List.length_nil] at hlen
    omega
  obtain ⟨a, ha⟩ := Option.isSome_iff_exists.mp (List.getLast?_isSome.mpr hne)
  rw [ha]
  rfl

theorem evictToCapacity_getLast? (cap : Nat) (c : List (Str × AudioPayload))
    (hcap : 1 ≤ cap) : (evictToCapacity cap c).getLast? = c.getLast? := by
  rw [evictToCapacity]
  rcases c with _ | ⟨e, t⟩
  · simp
  · apply getLast?_drop_of_lt
    simp only [List.length_cons]
    omega

theorem mapSet_getLast? (c : List (Str × AudioPayload)) (key : Str)
    (payload : AudioPayload)
    (h : c.find? (fun e => e.1 == key) = none ∨ ∃ q, c.getLast? = some (key, q)) :
    (mapSet c key payload).getLast? = some (key, payload) := by
  rw [mapSet]
  by_cases hany : c.any (fun e => e.1 == key)
  · rw [if_pos hany]
    rcases h with hnone | ⟨q, hq⟩
    · exfalso
      rw [List.find?_eq_none] at hnone
      rw [List.any_eq_true] at hany
      obtain ⟨x, hx, hpx⟩ := hany
      exact hnone x hx hpx
    · rw [List.getLast?_map, hq]
      simp
  · rw [if_neg hany]
    exact List.getLast?_concat _

theorem find?_key_isSome_of_getLast? (c : List (Str × AudioPayload)) (key : Str)
    (payload : AudioPayload) (h : c.getLast? = some (key, payload)) :
    (c.find? (fun e => e.1 == key)).isSome = true := by
  rw [List.find?_isSome]
  exact ⟨(key, payload), List.mem_of_getLast?_eq_some h, by simp⟩

theorem beginPrefetchRequest_false_of_find? (st : AudioCacheState) (key : Str)
    (h : (st.audioCache.find? (fun e => e.1 == key)).isSome = true) :
    (beginPrefetchRequest st key).2 = false := by
  obtain ⟨e, he⟩ := Option.isSome_iff_exists.mp h
  simp only [beginPrefetchRequest, getCachedAudio, he]

theorem beginPrefetchRequest_false_of_inflight (st : AudioCacheState) (key : Str)
    (hfind : st.audioCache.find? (fun e => e.1 == key) = none)
    (hmem : st.audioPrefetchTasks.contains key = true) :
    (beginPrefetchRequest st key).2 = false := by
  simp only [beginPrefetchRequest, getCachedAudio, hfind, hmem, if_true]

/-- After the synchronous prefix of `getOrCreatePrefetchAudioTask` for a
key, that key is either found in the cache (cache ends with it) or its
cache entry is still absent — in which case it is registered in-flight. -/
theorem beginPrefetchRequest_second_false (st : AudioCacheState) (key : Str) :
    (beginPrefetchRequest (beginPrefetchRequest st key).1 key).2 = false := by
  rcases hfind : st.audioCache.find? (fun e => e.1 == key) with _ | e
  · by_cases hmem : st.audioPrefetchTasks.contains key = true
    · have hst1 : (beginPrefetchRequest st key).1 = st := by
        simp only [beginPrefetchRequest, getCachedAudio, hfind, hmem, if_true]
      rw [hst1]
      exact beginPrefetchRequest_false_of_inflight st key hfind hmem
    · have hst1 : (beginPrefetchRequest st key).1 =
          { st with audioPrefetchTasks := st.audioPrefetchTasks ++ [key] } := by
        simp only [beginPrefetchRequest, getCachedAudio, hfind, hmem, if_false,
          Bool.false_eq_true]
      rw [hst1]
      apply beginPrefetchRequest_false_of_inflight
      · exact hfind
      · simp [List.contains_eq_any_beq]
  · have hst1 : (beginPrefetchRequest st key).1 =
        { st with audioCache :=
            (st.audioCache.eraseP (fun en => en.1 == key)) ++ [(key, e.2)] } := by
      simp only [beginPrefetchRequest, getCachedAudio, hfind]
    rw [hst1]
    apply beginPrefetchRequest_false_of_find?
    exact find?_key_isSome_of_getLast? _ _ e.2 (List.getLast?_concat _)

/-- The state left by the synchronous prefix of the first request: either
the key is still absent from the cache, or the cache ends with it. -/
theorem beginPrefetchRequest_fst_cache (st : AudioCacheState) (key : Str) :
    ((beginPrefetchRequest st key).1.audioCache.find? (fun e => e.1 == key) = none) ∨
      (∃ q, (beginPrefetchRequest st key).1.audioCache.getLast? = some (key, q)) := by
  rcases hfind : st.audioCache.find? (fun e => e.1 == key) with _ | e
  · left
    by_cases hmem : st.audioPrefetchTasks.contains key = true
    · have hst1 : (beginPrefetchRequest st key).1 = st := by
        simp only [beginPrefetchRequest, getCachedAudio, hfind, hmem, if_true]
      rw [hst1]
      exact hfind
    · have hst1 : (beginPrefetchRequest st key).1 =
          { st with audioPrefetchTasks := st.audioPrefetchTasks ++ [key] } := by
        simp only [beginPrefetchRequest, getCachedAudio, hfind, hmem, if_false,
          Bool.false_eq_true]
      rw [hst1]
      exact hfind
  · right
    refine ⟨e.2, ?_⟩
    have hst1 : (beginPrefetchRequest st key).1 =
        { st with audioCache :=
            (st.audioCache.eraseP (fun en => en.1 == key)) ++ [(key, e.2)] } := by
      simp only [beginPrefetchRequest, getCachedAudio, hfind]
    rw [hst1]
    exact List.getLast?_concat _

theorem begin_settle_begin_false (st : AudioCacheState) (key : Str) (cap : Nat)
    (payload : AudioPayload) (hcap : 1 ≤ cap) :
    (beginPrefetchRequest
        (settlePrefetchSuccess cap (beginPrefetchRequest st key).1 key payload)
        key).2 = false := by
  have hgood := beginPrefetchRequest_fst_cache st key
  have hlast : (settlePrefetchSuccess cap (beginPrefetchRequest st key).1 key
      payload).audioCache.getLast? = some (key, payload) := by
    simp only [settlePrefetchSuccess, setCachedAudio]
    rw [evictToCapacity_getLast? cap _ hcap]
    exact mapSet_getLast? _ _ _ hgood
  exact beginPrefetchRequest_false_of_find? _ _
    (find?_key_isSome_of_getLast? _ _ _ hlast)

theorem buildAudioCacheKey_rate_injective (p1 p2 : AudioCacheKeyParams)
    (hpid : p1.providerId = p2.providerId) (hpm : p1.model = p2.model)
    (hpv : p1.voice = p2.voice) (hpf : p1.responseFormat = p2.responseFormat)
    (hpt : p1.segmentText = p2.segmentText)
    (hk : buildAudioCacheKey p1 = buildAudioCacheKey p2) :
    p1.rateHundredths = p2.rateHundredths := by
  rw [buildAudioCacheKey, buildAudioCacheKey, hpid, hpm, hpv, hpf, hpt] at hk
  have h1 := List.append_cancel_left hk
  injection h1 with hc h2
  have h3 := List.append_cancel_left h2
  injection h3 with hc2 h4
  have h5 := List.append_cancel_left h4
  injection h5 with hc3 h6
  have h7 := List.append_cancel_left h6
  injection h7 with hc4 h8
  exact rateToFixed2_injective _ _ (List.append_cancel_right h8)

theorem buildAudioCacheKey_format_injective (q1 q2 : AudioCacheKeyParams)
    (hqid : q1.providerId = q2.providerId) (hqm : q1.model = q2.model)
    (hqv : q1.voice = q2.voice) (hqr : q1.rateHundredths = q2.rateHundredths)
    (hqt : q1.segmentText = q2.segmentText)
    (hk : buildAudioCacheKey q1 = buildAudioCacheKey q2) :
    q1.responseFormat = q2.responseFormat := by
  rw [buildAudioCacheKey, buildAudioCacheKey, hqid, hqm, hqv, hqr, hqt] at hk
  have h1 := List.append_cancel_left hk
  injection h1 with hc h2
  have h3 := List.append_cancel_left h2
  injection h3 with hc2 h4
  have h5 := List.append_cancel_left h4
  injection h5 with hc3 h6
  exact List.append_cancel_right h6

/-- C3: requesting audio for the same key twice in sequence issues at most
one network call — a second `getOrCreatePrefetchAudioTask` while the first
is still in flight joins its task without a new request (first conjunct),
and a second request after the first settles successfully is served from
the LRU cache (second conjunct, any capacity of at least one entry) — and
the cache key separates playback rates (third conjunct) and response
formats (fourth conjunct) whenever all other key components agree. -/
theorem C3_cache_idempotent_and_distinct_keys
    (st : AudioCacheState) (key : Str) (cap : Nat) (payload : AudioPayload)
    (p1 p2 q1 q2 : AudioCacheKeyParams)
    (hcap : 1 ≤ cap)
    (hpid : p1.providerId = p2.providerId) (hpm : p1.model = p2.model)
    (hpv : p1.voice = p2.voice) (hpf : p1.responseFormat = p2.responseFormat)
    (hpt : p1.segmentText = p2.segmentText)
    (hprate : p1.rateHundredths ≠ p2.rateHundredths)
    (hqid : q1.providerId = q2.providerId) (hqm : q1.model = q2.model)
    (hqv : q1.voice = q2.voice) (hqr : q1.rateHundredths = q2.rateHundredths)
    (hqt : q1.segmentText = q2.segmentText)
    (hqf : q1.responseFormat ≠ q2.responseFormat) :
    (beginPrefetchRequest (beginPrefetchRequest st key).1 key).2 = false ∧
    (beginPrefetchRequest
        (settlePrefetchSuccess cap (beginPrefetchRequest st key).1 key payload)
        key).2 = false ∧
    buildAudioCacheKey p1 ≠ buildAudioCacheKey p2 ∧
    buildAudioCacheKey q1 ≠ buildAudioCacheKey q2 := by
  refine ⟨beginPrefetchRequest_second_false st key,
    begin_settle_begin_false st key cap payload hcap, ?_, ?_⟩
  · intro hk
    exact hprate (buildAudioCacheKey_rate_injective p1 p2 hpid hpm hpv hpf hpt hk)
  · intro hk
    exact hqf (buildAudioCacheKey_format_injective q1 q2 hqid hqm hqv hqr hqt hk)

/-- Concrete instantiation of the C3 theorem: empty starting state, cache
capacity 1, and two parameter pairs differing only in rate (1.00 versus
1.50) and only in response format (mp3 versus wav). -/
theorem C3_witness :
    (1 ≤ 1 ∧
      (AudioCacheKeyParams.mk (("p").toList) (("m").toList) (("v").toList)
          (("mp3").toList) 100 (("hi").toList)).rateHundredths ≠
        (AudioCacheKeyParams.mk (("p").toList) (("m").toList) (("v").toList)
          (("mp3").toList) 150 (("hi").toList)).rateHundredths ∧
      (AudioCacheKeyParams.mk (("p").toList) (("m").toList) (("v").toList)
          (("mp3").toList) 100 (("hi").toList)).responseFormat ≠
        (AudioCacheKeyParams.mk (("p").toList) (("m").toList) (("v").toList)
          (("wav").toList) 100 (("hi").toList)).responseFormat) ∧
    ((beginPrefetchRequest
        (beginPrefetchRequest (AudioCacheState.mk [] []) (("k").toList)).1
        (("k").toList)).2 = false ∧
      (beginPrefetchRequest
          (settlePrefetchSuccess 1
            (beginPrefetchRequest (AudioCacheState.mk [] []) (("k").toList)).1
            (("k").toList) (AudioPayload.mk [7] (("audio/mpeg").toList)))
          (("k").toList)).2 = false ∧
      buildAudioCacheKey
          (AudioCacheKeyParams.mk (("p").toList) (("m").toList) (("v").toList)
            (("mp3").toList) 100 (("hi").toList)) ≠
        buildAudioCacheKey
          (AudioCacheKeyParams.mk (("p").toList) (("m").toList) (("v").toList)
            (("mp3").toList) 150 (("hi").toList)) ∧
      buildAudioCacheKey
          (AudioCacheKeyParams.mk (("p").toList) (("m").toList) (("v").toList)
            (("mp3").toList) 100 (("hi").toList)) ≠
        buildAudioCacheKey
          (AudioCacheKeyParams.mk (("p").toList) (("m").toList) (("v").toList)
            (("wav").toList) 100 (("hi").toList))) :=
  ⟨⟨by decide, by decide, by decide⟩,
    C3_cache_idempotent_and_distinct_keys (AudioCacheState.mk [] []) (("k").toList)
      1 (AudioPayload.mk [7] (("audio/mpeg").toList))
      (AudioCacheKeyParams.mk (("p").toList) (("m").toList) (("v").toList)
        (("mp3").toList) 100 (("hi").toList))
      (AudioCacheKeyParams.mk (("p").toList) (("m").toList) (("v").toList)
        (("mp3").toList) 150 (("hi").toList))
      (AudioCacheKeyParams.mk (("p").toList) (("m").toList) (("v").toList)
        (("mp3").toList) 100 (("hi").toList))
      (AudioCacheKeyParams.mk (("p").toList) (("m").toList) (("v").toList)
        (("wav").toList) 100 (("hi").toList))
      (by decide) rfl rfl rfl rfl rfl (by decide) rfl rfl rfl rfl rfl (by decide)⟩

/-- The error-code taxonomy `REMOTE_TTS_ERROR_CODES` of
`providerSettings.ts`. -/
inductive RemoteTTSErrorCode where
  | InvalidProvider
  | InvalidRequest
  | Unauthorized
  | Forbidden
  | RateLimited
  | Timeout
  | NetworkError
  | UpstreamError
deriving DecidableEq, Repr

/-- `RemoteTTSAdapterError` of `adapter.ts`: a typed error with taxonomy
code, message, HTTP-like status, and optional details (the JSON parsing of
the details body is abstracted to the raw body text). -/
structure RemoteTTSAdapterError where
  code : RemoteTTSErrorCode
  message : Str
  status : Nat
  details : Option Str
deriving DecidableEq, Repr

/-- `mapHttpStatusToErrorCode` of `adapter.ts`. -/
def mapHttpStatusToErrorCode (status : Nat) : RemoteTTSErrorCode :=
  if status = 401 then .Unauthorized
  else if status = 403 then .Forbidden
  else if status = 429 then .RateLimited
  else if 400 ≤ status ∧ status < 500 then .InvalidRequest
  else .UpstreamError

/-- An upstream HTTP response as the adapter observes it: status code,
content-type header value, and the body (used both as diagnostic text and
as the audio payload). -/
structure UpstreamResponse where
  status : Nat
  contentType : Str
  bodyText : Str
deriving DecidableEq, Repr

/-- `Response.ok`: status in the 2xx range. -/
def okStatus (status : Nat) : Bool :=
  decide (200 ≤ status) && decide (status < 300)

def responseOk (r : UpstreamResponse) : Bool :=
  okStatus r.status

/-- The possible outcomes of the underlying `fetch` call: a response, an
`AbortError` fired by the timeout handle, or another network failure. -/
inductive FetchOutcome where
  | success (response : UpstreamResponse)
  | abortedByTimeout
  | networkFailure (message : Str)
deriving DecidableEq, Repr

/-- `fetchJsonWithTimeout` of `adapter.ts`: an `AbortError` becomes a
`Timeout` adapter error with status 504 and the timeout in the message;
any other fetch failure becomes a `NetworkError` with status 502. -/
def fetchJsonWithTimeout (outcome : FetchOutcome) (timeoutMs : Nat) :
    Except RemoteTTSAdapterError UpstreamResponse :=
  match outcome with
  | .success r => .ok r
  | .abortedByTimeout =>
    .error ⟨.Timeout,
      ("Request timed out after ").toList ++ natDigits timeoutMs ++ ("ms").toList,
      504, none⟩
  | .networkFailure msg => .error ⟨.NetworkError, msg, 502, none⟩

/-- `assertOkResponse` of `adapter.ts`: a non-2xx response raises an
adapter error whose code comes from `mapHttpStatusToErrorCode` and whose
status echoes the response status. -/
def assertOkResponse (r : UpstreamResponse) : Except RemoteTTSAdapterError Unit :=
  if responseOk r then .ok ()
  else
    .error ⟨mapHttpStatusToErrorCode r.status,
      ("Remote provider request failed with status ").toList ++ natDigits r.status,
      r.status, some r.bodyText⟩

/-- `trimTrailingSlash` of the OpenAI-compatible adapter:
`baseUrl.replace(/\/+$/, '')`. -/
def trimTrailingSlash (baseUrl : Str) : Str :=
  (baseUrl.reverse.dropWhile (fun c => c = '/')).reverse

/-- The provider profile fields the adapter reads (`timeoutMs` optional,
default 30000 applied at the call sites). -/
structure TTSProviderProfileModel where
  baseUrl : Str
  model : Str
  defaultVoice : Str
  timeoutMs : Option Nat
deriving DecidableEq, Repr

/-- `RemoteTTSSynthesisParams`: speed in hundredths, optional. -/
structure RemoteTTSSynthesisParamsModel where
  input : Str
  model : Str
  voice : Str
  speedTimes100 : Option Nat
  responseFormat : Option Str
deriving DecidableEq, Repr

/-- The JSON body of the speech request (`stream` is forced to `false` on
the non-streaming path). -/
structure SpeechPayload where
  model : Str
  input : Str
  voice : Str
  speedTimes100 : Nat
  response_format : Str
deriving DecidableEq, Repr

/-- `buildSpeechPayload` of the OpenAI-compatible adapter: fall back to the
provider's model/default voice on empty params, and reject an empty input,
model, or voice with `InvalidRequest`. -/
def buildSpeechPayload (provider : TTSProviderProfileModel)
    (params : RemoteTTSSynthesisParamsModel) :
    Except RemoteTTSAdapterError SpeechPayload :=
  let model := if params.model = [] then provider.model else params.model
  let voice := if params.voice = [] then provider.defaultVoice else params.voice
  if params.input = [] ∨ model = [] ∨ voice = [] then
    .error ⟨.InvalidRequest, ("input, model and voice are required").toList, 400, none⟩
  else
    .ok ⟨model, params.input, voice, params.speedTimes100.getD 100,
      params.responseFormat.getD (("mp3").toList)⟩

/-- `RemoteTTSSynthesisResult`: content type (falling back to
`audio/mpeg` when the header is empty) and the audio bytes (modelled by
the body text). -/
structure RemoteTTSSynthesisResult where
  contentType : Str
  data : Str
deriving DecidableEq, Repr

/-- `OpenAICompatibleAdapter.synthesize`: resolve the timeout (default
30000 ms), reject an empty trimmed `baseUrl` with `InvalidProvider`,
build the speech payload (which may reject with `InvalidRequest`), run
the fetch with timeout, assert a 2xx response, and wrap the body.  The
fetch outcome is an oracle parameter standing for the network. -/
def synthesize (provider : TTSProviderProfileModel)
    (params : RemoteTTSSynthesisParamsModel) (outcome : FetchOutcome) :
    Except RemoteTTSAdapterError RemoteTTSSynthesisResult :=
  let timeoutMs := provider.timeoutMs.getD 30000
  let baseUrl := trimTrailingSlash provider.baseUrl
  if baseUrl = [] then
    .error ⟨.InvalidProvider, ("Provider baseUrl is required").toList, 400, none⟩
  else
    match buildSpeechPayload provider params with
    | .error e => .error e
    | .ok _payload =>
      match fetchJsonWithTimeout outcome timeoutMs with
      | .error e => .error e
      | .ok response =>
        match assertOkResponse response with
        | .error e => .error e
        | .ok _ =>
          .ok ⟨if response.contentType = [] then ("audio/mpeg").toList
               else response.contentType,
            response.bodyText⟩

def synthErrorCode :
    Except RemoteTTSAdapterError RemoteTTSSynthesisResult → Option RemoteTTSErrorCode
  | .error e => some e.code
  | .ok _ => none

def synthErrorStatus :
    Except RemoteTTSAdapterError RemoteTTSSynthesisResult → Option Nat
  | .error e => some e.status
  | .ok _ => none

def synthErrorMessage :
    Except RemoteTTSAdapterError RemoteTTSSynthesisResult → Option Str
  | .error e => some e.message
  | .ok _ => none

theorem buildSpeechPayload_ok (provider : TTSProviderProfileModel)
    (params : RemoteTTSSynthesisParamsModel)
    (hin : params.input ≠ [])
    (hm : (if params.model = [] then provider.model else params.model) ≠ [])
    (hv : (if params.voice = [] then provider.defaultVoice else params.voice) ≠ []) :
    ∃ pl, buildSpeechPayload provider params = .ok pl := by
  rw [buildSpeechPayload]
  rw [if_neg]
  · exact ⟨_, rfl⟩
  · rintro (h | h | h)
    · exact hin h
    · exact hm h
    · exact hv h

/-- C8: adapter failures carry the documented taxonomy codes — an empty
`baseUrl` fails with `InvalidProvider`; a fetch aborted by the timeout
fails with `Timeout` and status 504 (default timeout 30000 ms when the
profile sets none); any other network failure fails with `NetworkError`
and status 502; a non-2xx response fails with the code given by
`mapHttpStatusToErrorCode`, which sends 401 to `Unauthorized`, 403 to
`Forbidden`, 429 to `RateLimited`, any other 4xx to `InvalidRequest`, and
everything else to `UpstreamError`. -/
theorem C8_adapter_error_taxonomy (provider : TTSProviderProfileModel)
    (params : RemoteTTSSynthesisParamsModel) (outcome : FetchOutcome)
    (msg : Str) (r : UpstreamResponse)
    (hbase : trimTrailingSlash provider.baseUrl ≠ [])
    (hin : params.input ≠ [])
    (hm : (if params.model = [] then provider.model else params.model) ≠ [])
    (hv : (if params.voice = [] then provider.defaultVoice else params.voice) ≠ []) :
    (∀ p2 : TTSProviderProfileModel, trimTrailingSlash p2.baseUrl = [] →
      synthErrorCode (synthesize p2 params outcome) = some .InvalidProvider) ∧
    (synthErrorCode (synthesize provider params .abortedByTimeout) = some .Timeout ∧
      synthErrorStatus (synthesize provider params .abortedByTimeout) = some 504 ∧
      (provider.timeoutMs = none →
        synthErrorMessage (synthesize provider params .abortedByTimeout) =
          some (("Request timed out after 30000ms").toList))) ∧
    (synthErrorCode (synthesize provider params (.networkFailure msg)) =
        some .NetworkError ∧
      synthErrorStatus (synthesize provider params (.networkFailure msg)) =
        some 502) ∧
    (responseOk r = false →
      synthErrorCode (synthesize provider params (.success r)) =
          some (mapHttpStatusToErrorCode r.status) ∧
        synthErrorStatus (synthesize provider params (.success r)) =
          some r.status) ∧
    (mapHttpStatusToErrorCode 401 = .Unauthorized ∧
      mapHttpStatusToErrorCode 403 = .Forbidden ∧
      mapHttpStatusToErrorCode 429 = .RateLimited ∧
      (∀ s, 400 ≤ s → s < 500 → s ≠ 401 → s ≠ 403 → s ≠ 429 →
        mapHttpStatusToErrorCode s = .InvalidRequest) ∧
      (∀ s, s < 400 ∨ 500 ≤ s → mapHttpStatusToErrorCode s = .UpstreamError)) := by
  obtain ⟨pl, hpl⟩ := buildSpeechPayload_ok provider params hin hm hv
  refine ⟨?_, ?_, ?_, ?_, ?_⟩
  · intro p2 h2
    simp only [synthesize, h2, if_pos, synthErrorCode]
  · refine ⟨?_, ?_, ?_⟩
    · simp only [synthesize, if_neg hbase, hpl, fetchJsonWithTimeout, synthErrorCode]
    · simp only [synthesize, if_neg hbase, hpl, fetchJsonWithTimeout, synthErrorStatus]
    · intro hnone
      simp only [synthesize, if_neg hbase, hpl, fetchJsonWithTimeout,
        synthErrorMessage, hnone, Option.getD_none]
      rw [Option.some.injEq]
      decide
  · constructor
    · simp only [synthesize, if_neg hbase, hpl, fetchJsonWithTimeout, synthErrorCode]
    · simp only [synthesize, if_neg hbase, hpl, fetchJsonWithTimeout, synthErrorStatus]
  · intro hro
    constructor
    · simp only [synthesize, if_neg hbase, hpl, fetchJsonWithTimeout,
        assertOkResponse, hro, Bool.false_eq_true, if_false, synthErrorCode]
    · simp only [synthesize, if_neg hbase, hpl, fetchJsonWithTimeout,
        assertOkResponse, hro, Bool.false_eq_true, if_false, synthErrorStatus]
  · refine ⟨by decide, by decide, by decide, ?_, ?_⟩
    · intro s h4 h5 h401 h403 h429
      rw [mapHttpStatusToErrorCode, if_neg h401, if_neg h403, if_neg h429, if_pos]
      exact ⟨h4, h5⟩
    · intro s hs
      have h401 : s ≠ 401 := by omega
      have h403 : s ≠ 403 := by omega
      have h429 : s ≠ 429 := by omega
      rw [mapHttpStatusToErrorCode, if_neg h401, if_neg h403, if_neg h429, if_neg]
      omega

/-- Concrete instantiation of the C8 theorem: a provider whose base URL
trims to `http://h`, empty param model/voice falling back to the provider
profile, and a 500-status upstream response. -/
theorem C8_witness :
    (trimTrailingSlash (("http://h/").toList) ≠ [] ∧ ("x").toList ≠ [] ∧
      (if (([]) : Str) = [] then ("m").toList else ([] : Str)) ≠ [] ∧
      (if (([]) : Str) = [] then ("v").toList else ([] : Str)) ≠ []) ∧
    ((∀ p2 : TTSProviderProfileModel, trimTrailingSlash p2.baseUrl = [] →
      synthErrorCode
          (synthesize p2
            (RemoteTTSSynthesisParamsModel.mk (("x").toList) [] [] none none)
            (FetchOutcome.success (UpstreamResponse.mk 500 [] []))) =
        some .InvalidProvider) ∧
    (synthErrorCode
        (synthesize
          (TTSProviderProfileModel.mk (("http://h/").toList) (("m").toList)
            (("v").toList) none)
          (RemoteTTSSynthesisParamsModel.mk (("x").toList) [] [] none none)
          .abortedByTimeout) = some .Timeout ∧
      synthErrorStatus
        (synthesize
          (TTSProviderProfileModel.mk (("http://h/").toList) (("m").toList)
            (("v").toList) none)
          (RemoteTTSSynthesisParamsModel.mk (("x").toList) [] [] none none)
          .abortedByTimeout) = some 504 ∧
      ((TTSProviderProfileModel.mk (("http://h/").toList) (("m").toList)
          (("v").toList) none).timeoutMs = none →
        synthErrorMessage
          (synthesize
            (TTSProviderProfileModel.mk (("http://h/").toList) (("m").toList)
              (("v").toList) none)
            (RemoteTTSSynthesisParamsModel.mk (("x").toList) [] [] none none)
            .abortedByTimeout) =
          some (("Request timed out after 30000ms").toList))) ∧
    (synthErrorCode
        (synthesize
          (TTSProviderProfileModel.mk (("http://h/").toList) (("m").toList)
            (("v").toList) none)
          (RemoteTTSSynthesisParamsModel.mk (("x").toList) [] [] none none)
          (.networkFailure (("boom").toList))) = some .NetworkError ∧
      synthErrorStatus
        (synthesize
          (TTSProviderProfileModel.mk (("http://h/").toList) (("m").toList)
            (("v").toList) none)
          (RemoteTTSSynthesisParamsModel.mk (("x").toList) [] [] none none)
          (.networkFailure (("boom").toList))) = some 502) ∧
    (responseOk (UpstreamResponse.mk 500 [] []) = false →
      synthErrorCode
          (synthesize
            (TTSProviderProfileModel.mk (("http://h/").toList) (("m").toList)
              (("v").toList) none)
            (RemoteTTSSynthesisParamsModel.mk (("x").toList) [] [] none none)
            (.success (UpstreamResponse.mk 500 [] []))) =
          some (mapHttpStatusToErrorCode (UpstreamResponse.mk 500 [] []).status) ∧
        synthErrorStatus
          (synthesize
            (TTSProviderProfileModel.mk (("http://h/").toList) (("m").toList)
              (("v").toList) none)
            (RemoteTTSSynthesisParamsModel.mk (("x").toList) [] [] none none)
            (.success (UpstreamResponse.mk 500 [] []))) =
          some (UpstreamResponse.mk 500 [] []).status) ∧
    (mapHttpStatusToErrorCode 401 = .Unauthorized ∧
      mapHttpStatusToErrorCode 403 = .Forbidden ∧
      mapHttpStatusToErrorCode 429 = .RateLimited ∧
      (∀ s, 400 ≤ s → s < 500 → s ≠ 401 → s ≠ 403 → s ≠ 429 →
        mapHttpStatusToErrorCode s = .InvalidRequest) ∧
      (∀ s, s < 400 ∨ 500 ≤ s → mapHttpStatusToErrorCode s = .UpstreamError))) :=
  ⟨⟨by decide, by decide, by decide, by decide⟩,
    C8_adapter_error_taxonomy
      (TTSProviderProfileModel.mk (("http://h/").toList) (("m").toList)
        (("v").toList) none)
      (RemoteTTSSynthesisParamsModel.mk (("x").toList) [] [] none none)
      (FetchOutcome.success (UpstreamResponse.mk 500 [] []))
      (("boom").toList) (UpstreamResponse.mk 500 [] [])
      (by decide) (by decide) (by decide) (by decide)⟩

/-- Lowercasing of the content-type header (`.toLowerCase()`; content
types are ASCII, where `Char.toLower` agrees with JavaScript). -/
def toLowerStr (s : Str) : Str :=
  s.map Char.toLower

/-- JavaScript `String.includes`: the needle occurs as a contiguous
substring of the haystack. -/
def containsSubstr : Str → Str → Bool
  | [], needle => needle.isEmpty
  | c :: t, needle => List.isPrefixOf needle (c :: t) || containsSubstr t needle

/-- A client-side HTTP response as `ensureAudioResponse` observes it:
status, the raw `content-type` header (absent modelled as `none`), and
the body text. -/
structure ClientHttpResponse where
  status : Nat
  contentTypeHeader : Option Str
  bodyText : Str
deriving DecidableEq, Repr

/-- What the buffered `speak` path can throw: a plain `Error` (no
taxonomy code) or a typed `RemoteTTSAdapterError`. -/
inductive ClientThrownError where
  | plainError (message : Str)
  | adapterError (e : RemoteTTSAdapterError)
deriving DecidableEq, Repr

/-- The taxonomy code carried by a thrown error, if any. -/
def thrownCode : ClientThrownError → Option RemoteTTSErrorCode
  | .plainError _ => none
  | .adapterError e => some e.code

/-- `ensureAudioResponse` of `RemoteTTSClient.speak`: non-ok responses and
ok responses with a JSON/plain-text/HTML content type are rejected by
throwing a plain `Error` carrying a 200-character body excerpt. -/
def ensureAudioResponse (r : ClientHttpResponse) :
    Except ClientThrownError ClientHttpResponse :=
  if !okStatus r.status then
    .error (.plainError (("Remote TTS HTTP ").toList ++ natDigits r.status ++
      (": ").toList ++ r.bodyText.take 200))
  else
    let contentType := toLowerStr (r.contentTypeHeader.getD [])
    if containsSubstr contentType (("application/json").toList) ||
        containsSubstr contentType (("text/plain").toList) ||
        containsSubstr contentType (("text/html").toList) then
      .error (.plainError (("Remote TTS non-audio response: ").toList ++
        r.bodyText.take 200))
    else .ok r

/-- C9 counterexample: a 200 response with content type
`application/json` is rejected, but the thrown value is a plain `Error`
carrying no taxonomy code at all — in particular not `UpstreamError` as
the claim states. -/
theorem C9_counterexample :
    ensureAudioResponse
        (ClientHttpResponse.mk 200 (some (("application/json").toList))
          (("nope").toList)) =
      .error (.plainError (("Remote TTS non-audio response: nope").toList)) ∧
    thrownCode
        (.plainError (("Remote TTS non-audio response: nope").toList)) = none ∧
    (none : Option RemoteTTSErrorCode) ≠ some .UpstreamError := by
  refine ⟨rfl, rfl, by decide⟩

/-- C9 (amended): an ok (2xx) response whose lowercased content type
contains `application/json`, `text/plain` or `text/html` is rejected by
throwing a plain `Error` whose message carries a 200-character excerpt of
the body; the thrown error carries no taxonomy code. -/
theorem C9_plain_error_on_non_audio (r : ClientHttpResponse)
    (hok : okStatus r.status = true)
    (hct : (containsSubstr (toLowerStr (r.contentTypeHeader.getD []))
        (("application/json").toList) ||
      containsSubstr (toLowerStr (r.contentTypeHeader.getD []))
        (("text/plain").toList) ||
      containsSubstr (toLowerStr (r.contentTypeHeader.getD []))
        (("text/html").toList)) = true) :
    ensureAudioResponse r =
      .error (.plainError (("Remote TTS non-audio response: ").toList ++
        r.bodyText.take 200)) ∧
    ∀ e, ensureAudioResponse r = .error e → thrownCode e = none := by
  have h1 : ensureAudioResponse r =
      .error (.plainError (("Remote TTS non-audio response: ").toList ++
        r.bodyText.take 200)) := by
    rw [ensureAudioResponse, hok]
    simp only [Bool.not_true, Bool.false_eq_true, if_false]
    rw [if_pos hct]
  refine ⟨h1, ?_⟩
  intro e he
  rw [h1] at he
  injection he with he2
  rw [← he2]
  rfl

/-- Concrete instantiation of the amended C9 theorem: a 200 response with
header `Application/JSON` (exercising the lowercasing) and body
`server error`. -/
theorem C9_witness :
    (okStatus
        (ClientHttpResponse.mk 200 (some (("Application/JSON").toList))
          (("server error").toList)).status = true ∧
      (containsSubstr
          (toLowerStr
            ((ClientHttpResponse.mk 200 (some (("Application/JSON").toList))
              (("server error").toList)).contentTypeHeader.getD []))
          (("application/json").toList) ||
        containsSubstr
          (toLowerStr
            ((ClientHttpResponse.mk 200 (some (("Application/JSON").toList))
              (("server error").toList)).contentTypeHeader.getD []))
          (("text/plain").toList) ||
        containsSubstr
          (toLowerStr
            ((ClientHttpResponse.mk 200 (some (("Application/JSON").toList))
              (("server error").toList)).contentTypeHeader.getD []))
          (("text/html").toList)) = true) ∧
    (ensureAudioResponse
        (ClientHttpResponse.mk 200 (some (("Application/JSON").toList))
          (("server error").toList)) =
      .error (.plainError (("Remote TTS non-audio response: ").toList ++
        (ClientHttpResponse.mk 200 (some (("Application/JSON").toList))
          (("server error").toList)).bodyText.take 200)) ∧
    ∀ e,
      ensureAudioResponse
          (ClientHttpResponse.mk 200 (some (("Application/JSON").toList))
            (("server error").toList)) = .error e →
        thrownCode e = none) :=
  ⟨⟨by decide, by decide⟩,
    C9_plain_error_on_non_audio
      (ClientHttpResponse.mk 200 (some (("Application/JSON").toList))
        (("server error").toList))
      (by decide) (by decide)⟩

/-- C10: the cache key joins provider id, model, voice, format, rate and
segment text with an unescaped bar character, so the two distinct tuples
(model `a|b`, voice `c`) and (model `a`, voice `b|c`) — all other
components equal — collide on the same key. -/
theorem C10_cache_key_not_injective :
    buildAudioCacheKey
        (AudioCacheKeyParams.mk (("p").toList) (("a|b").toList) (("c").toList)
          (("mp3").toList) 100 (("t").toList)) =
      buildAudioCacheKey
        (AudioCacheKeyParams.mk (("p").toList) (("a").toList) (("b|c").toList)
          (("mp3").toList) 100 (("t").toList)) ∧
    AudioCacheKeyParams.mk (("p").toList) (("a|b").toList) (("c").toList)
          (("mp3").toList) 100 (("t").toList) ≠
      AudioCacheKeyParams.mk (("p").toList) (("a").toList) (("b|c").toList)
          (("mp3").toList) 100 (("t").toList) := by
  constructor
  · decide
  · decide

end Readest
